import Mathlib

/-!
Verification of the AetherFlow core against its specification.

This file shallowly embeds the parts of the AetherFlow Python code base that
the checked claims are about:

* `aetherflow/core/resolution.py` — the strict template resolver
  (`_render_string`, `_render_string_or_typed`, `_walk_and_render`,
  `resolve_resource`, decode-request collection, the standalone-token regex);
* `aetherflow/core/validation.py` — the decode-concatenation scan of
  `scan_runtime_templates`;
* `aetherflow/core/runtime/secrets.py` — the secrets hook loader contract;
* `aetherflow/core/runner.py` — job gating (`depends_on`, `when`) and the
  per-job step loop with resume semantics;
* `aetherflow/core/bundles.py` — `_mtime_sig`, `_fingerprint`, and the
  `sync_bundle` fetch/early-return algorithm;
* `aetherflow/core/builtins/steps.py` — `_resolve_path`,
  `_reject_symlink_chain` and the sandbox mode switches.

Python strings are modelled as `List Char`, Python values as the inductive
`PyVal`, dictionaries as association lists (Python dicts preserve insertion
order and have unique keys).  Modelling notes on specific points (Unicode
classes, floats, `os.environ`) are attached to the relevant definitions.
-/

set_option maxHeartbeats 1000000
set_option maxRecDepth 100000

namespace Aether

/-- Python strings are modelled as lists of characters. -/
abbrev LC := List Char

/-- Convert a Lean string literal to the model representation. -/
def lc (s : String) : LC := s.data

/-! ## Python character classes

CPython's `str.isalpha`/`str.isalnum`/`str.isspace` and the `re` module's
`\s` are Unicode-aware.  The model restricts them to their ASCII fragment,
which is exact for every string the claims exercise; all identifiers and
whitespace appearing in flows covered here are ASCII. -/

def pyIsSpace (c : Char) : Bool :=
  c = ' ' || c = '\t' || c = '\n' || c = '\x0d' || c = '\x0b' || c = '\x0c'

def pyIsAlpha (c : Char) : Bool :=
  ('A' ≤ c && c ≤ 'Z') || ('a' ≤ c && c ≤ 'z')

def pyIsDigit (c : Char) : Bool := '0' ≤ c && c ≤ '9'

def pyIsAlnum (c : Char) : Bool := pyIsAlpha c || pyIsDigit c

/-- Python `str.strip()` with no argument: remove whitespace on both ends. -/
def pyStrip (s : LC) : LC :=
  ((s.dropWhile pyIsSpace).reverse.dropWhile pyIsSpace).reverse

/-! ## Python values -/

/-- The Python values that flow through the resolver: strings, ints, bools,
`None`, lists and (insertion-ordered) dicts with string keys.  Floats and
tuples do not occur in any checked claim and are omitted. -/
inductive PyVal where
  | str (s : LC)
  | int (n : Int)
  | bool (b : Bool)
  | none
  | list (xs : List PyVal)
  | dict (kvs : List (LC × PyVal))

/-- Association-list lookup: Python `part in cur` / `cur[part]` on a dict. -/
def dictGet (kvs : List (LC × PyVal)) (k : LC) : Option PyVal :=
  match kvs with
  | [] => Option.none
  | (k', v) :: rest => if k' = k then some v else dictGet rest k

/-- Python dict assignment `d[k] = v`: replace in place if the key exists
(its position is kept), otherwise append. -/
def dictSet (kvs : List (LC × PyVal)) (k : LC) (v : PyVal) : List (LC × PyVal) :=
  match kvs with
  | [] => [(k, v)]
  | (k', v') :: rest => if k' = k then (k', v) :: rest else (k', v') :: dictSet rest k v

/-- Python `str(int)` (`Nat.toDigits` produces the usual decimal digits). -/
def intRepr (n : Int) : LC :=
  if n < 0 then '-' :: Nat.toDigits 10 n.natAbs else Nat.toDigits 10 n.natAbs

/-- Python `repr(str)`: the common case (single quotes, standard escapes).
CPython additionally switches quote style when the string contains a single
quote and escapes other control characters; no claim evaluates `str()` on a
container holding such strings. -/
def strReprEsc (s : LC) : LC :=
  s.flatMap fun c =>
    if c = '\\' then ['\\', '\\']
    else if c = '\'' then ['\\', '\'']
    else if c = '\n' then ['\\', 'n']
    else if c = '\t' then ['\\', 't']
    else if c = '\x0d' then ['\\', 'r']
    else [c]

/-- Comma-space interleaving used by Python container reprs. -/
def commaJoin (xs : List LC) : LC :=
  match xs with
  | [] => []
  | [x] => x
  | x :: rest => x ++ ',' :: ' ' :: commaJoin rest

mutual
/-- Python `str(value)` as used by the renderer (`str(resolved)`). -/
def pyStr : PyVal → LC
  | .str s => s
  | .int n => intRepr n
  | .bool b => if b then lc "True" else lc "False"
  | .none => lc "None"
  | .list xs => '[' :: commaJoin (pyReprList xs) ++ [']']
  | .dict kvs => '{' :: commaJoin (pyReprDict kvs) ++ ['}']

/-- Python `repr(value)` (containers stringify their elements with `repr`). -/
def pyRepr : PyVal → LC
  | .str s => '\'' :: strReprEsc s ++ ['\'']
  | .int n => intRepr n
  | .bool b => if b then lc "True" else lc "False"
  | .none => lc "None"
  | .list xs => '[' :: commaJoin (pyReprList xs) ++ [']']
  | .dict kvs => '{' :: commaJoin (pyReprDict kvs) ++ ['}']

def pyReprList : List PyVal → List LC
  | [] => []
  | v :: rest => pyRepr v :: pyReprList rest

def pyReprDict : List (LC × PyVal) → List LC
  | [] => []
  | (k, v) :: rest => (pyRepr (.str k) ++ ':' :: ' ' :: pyRepr v) :: pyReprDict rest
end

/-- Python `value == ""` for a resolver result (`0 == ""` is `False`). -/
def pyEmptyStr (v : PyVal) : Bool :=
  match v with
  | .str [] => true
  | _ => false

/-! ## Substring search (Python `in`, `str.find`) -/

/-- Python `pat in s`. -/
def containsSub : LC → LC → Bool
  | [], pat => pat.isPrefixOf []
  | c :: t, pat => pat.isPrefixOf (c :: t) || containsSub t pat

/-- Split at the leftmost occurrence of `pat`: Python `s.find(pat)` plus
slicing.  Returns `(before, after)` with `s = before ++ pat ++ after`. -/
def splitFirstSub : LC → LC → Option (LC × LC)
  | [], pat => if pat.isPrefixOf [] then some ([], []) else Option.none
  | c :: t, pat =>
    if pat.isPrefixOf (c :: t) then some ([], (c :: t).drop pat.length)
    else (splitFirstSub t pat).map (fun p => (c :: p.1, p.2))

theorem splitFirstSub_eq {s pat b a : LC} (h : splitFirstSub s pat = some (b, a)) :
    s = b ++ pat ++ a := by
  induction s generalizing b with
  | nil =>
    rw [splitFirstSub] at h
    by_cases hp : pat.isPrefixOf ([] : LC)
    · simp only [hp, if_true, Option.some.injEq, Prod.mk.injEq] at h
      obtain ⟨h1, h2⟩ := h
      have hpn : pat = [] := List.prefix_nil.mp (List.isPrefixOf_iff_prefix.mp hp)
      subst hpn; subst h1; subst h2; rfl
    · rw [if_neg hp] at h; cases h
  | cons c t ih =>
    rw [splitFirstSub] at h
    by_cases hp : pat.isPrefixOf (c :: t)
    · simp only [hp, if_true, Option.some.injEq, Prod.mk.injEq] at h
      obtain ⟨h1, h2⟩ := h
      subst h1
      have := List.prefix_iff_eq_append.mp (List.isPrefixOf_iff_prefix.mp hp)
      rw [← h2, List.nil_append]
      exact this.symm
    · rw [if_neg hp] at h
      cases hsp : splitFirstSub t pat with
      | none => rw [hsp] at h; simp at h
      | some p =>
        rw [hsp] at h
        obtain ⟨b', a'⟩ := p
        simp only [Option.map_some', Option.some.injEq, Prod.mk.injEq] at h
        obtain ⟨hb, ha⟩ := h
        subst hb; subst ha
        have := ih hsp
        simp [this]

theorem splitFirstSub_none {s pat : LC} (h : splitFirstSub s pat = Option.none) :
    containsSub s pat = false := by
  induction s with
  | nil =>
    rw [splitFirstSub] at h
    rw [containsSub]
    by_cases hp : pat.isPrefixOf ([] : LC)
    · rw [if_pos hp] at h; cases h
    · exact Bool.eq_false_iff.mpr hp
  | cons c t ih =>
    rw [splitFirstSub] at h
    rw [containsSub]
    by_cases hp : pat.isPrefixOf (c :: t)
    · rw [if_pos hp] at h; cases h
    · rw [if_neg hp] at h
      cases hsp : splitFirstSub t pat with
      | none => simp [hp, ih hsp]
      | some p => rw [hsp] at h; simp at h

theorem splitFirstSub_length {s pat b a : LC} (h : splitFirstSub s pat = some (b, a)) :
    s.length = b.length + pat.length + a.length := by
  have := splitFirstSub_eq h
  subst this
  simp [List.length_append]
  omega

/-- The part before a leftmost split of a doubled two-character pattern is
clean: the pattern occurs neither inside it nor straddling the cut. -/
theorem splitFirstSub_before_clean {s b a : LC} {x : Char}
    (h : splitFirstSub s [x, x] = some (b, a)) :
    containsSub (b ++ [x]) [x, x] = false := by
  induction s generalizing b with
  | nil =>
    rw [splitFirstSub] at h
    by_cases hp : List.isPrefixOf [x, x] ([] : LC)
    · exact absurd (List.prefix_nil.mp (List.isPrefixOf_iff_prefix.mp hp)) (by simp)
    · simp [hp] at h
  | cons c t ih =>
    rw [splitFirstSub] at h
    by_cases hp : List.isPrefixOf [x, x] (c :: t)
    · simp only [hp, if_true, Option.some.injEq, Prod.mk.injEq] at h
      obtain ⟨h1, _⟩ := h
      subst h1
      simp [containsSub, List.isPrefixOf]
    · rw [if_neg hp] at h
      cases hsp : splitFirstSub t [x, x] with
      | none => rw [hsp] at h; simp at h
      | some p =>
        rw [hsp] at h
        obtain ⟨b', a'⟩ := p
        simp only [Option.map_some', Option.some.injEq, Prod.mk.injEq] at h
        obtain ⟨hb, ha⟩ := h
        subst hb; subst ha
        rw [List.cons_append, containsSub]
        have ht := splitFirstSub_eq hsp
        have hnp : List.isPrefixOf [x, x] (c :: (b' ++ [x])) = false := by
          by_contra hcon
          apply hp
          rw [Bool.not_eq_false] at hcon
          have hpre := List.isPrefixOf_iff_prefix.mp hcon
          rw [List.isPrefixOf_iff_prefix]
          refine hpre.trans ?_
          rw [ht]
          refine ⟨x :: a', ?_⟩
          simp
        simp [hnp, ih hsp]

/-- Computation rule: splitting `b ++ [x, x] ++ a` at `[x, x]` recovers
`(b, a)` when `b` is clean for the pattern. -/
theorem splitFirstSub_append {b a : LC} {x : Char}
    (hclean : containsSub (b ++ [x]) [x, x] = false) :
    splitFirstSub (b ++ x :: x :: a) [x, x] = some (b, a) := by
  induction b with
  | nil =>
    rw [List.nil_append, splitFirstSub]
    have hp : List.isPrefixOf [x, x] (x :: x :: a) = true := by
      rw [List.isPrefixOf_iff_prefix]
      exact ⟨a, rfl⟩
    simp [hp]
  | cons c b' ih =>
    rw [List.cons_append, containsSub] at hclean
    rw [List.cons_append, splitFirstSub]
    obtain ⟨h1, h2⟩ := Bool.or_eq_false_iff.mp hclean
    have hnp : List.isPrefixOf [x, x] (c :: (b' ++ x :: x :: a)) = false := by
      by_contra hcon
      rw [Bool.not_eq_false, List.isPrefixOf_iff_prefix, List.cons_prefix_cons] at hcon
      obtain ⟨hxc, htail⟩ := hcon
      rw [Bool.eq_false_iff] at h1
      apply h1
      rw [List.isPrefixOf_iff_prefix, List.cons_prefix_cons]
      refine ⟨hxc, ?_⟩
      cases b' with
      | nil =>
        exact ⟨[], by simp⟩
      | cons d b'' =>
        rw [List.cons_append, List.cons_prefix_cons] at htail
        obtain ⟨hxd, _⟩ := htail
        rw [List.cons_append, List.cons_prefix_cons]
        exact ⟨hxd, List.nil_prefix⟩
    simp only [hnp, Bool.false_eq_true, if_false]
    rw [ih h2]
    rfl

theorem dropWhileLen (p : Char → Bool) (l : LC) : (l.dropWhile p).length ≤ l.length := by
  induction l with
  | nil => simp
  | cons c t ih =>
    rw [List.dropWhile]
    by_cases h : p c
    · simp only [h]; exact Nat.le_succ_of_le ih
    · simp [h]

/-! ## The strict template resolver (`aetherflow/core/resolution.py`)

Error kinds: `ResolverSyntaxError` carries the fixed unsupported-syntax
message followed by a newline and a context detail (`_syntax_error`);
`ResolverMissingKeyError` carries the dotted path.  The interpolated
context details of the Python f-strings are reproduced only by their
literal text (no claim depends on them). -/

inductive RErr where
  | syn (detail : LC)
  | missingKey (path : LC)

/-- `_UNSUPPORTED_MSG` in `resolution.py`. -/
def unsupportedMsg : LC := lc "Unsupported templating syntax. Use {{VAR}} or {{VAR:DEFAULT}}"

/-- The `str()` of a raised resolver error: `_syntax_error` builds
`_UNSUPPORTED_MSG + "\n" + msg`; a missing-key error carries the path. -/
def errText : RErr → LC
  | .syn d => unsupportedMsg ++ '\n' :: d
  | .missingKey p => p

/-- `_is_identifier` (resolution.py:37). -/
def isIdentifier (t : LC) : Bool :=
  match t with
  | [] => false
  | c :: rest => (pyIsAlpha c || c = '_') && rest.all (fun ch => pyIsAlnum ch || ch = '_')

/-- `_is_valid_path` (resolution.py:48): every dot-separated part is an
identifier. -/
def isValidPath (path : LC) : Bool := (List.splitOn '.' path).all isIdentifier

/-- `_lookup_path` (resolution.py:53): dotted traversal of nested mappings;
`(False, None)` is modelled as `none`. -/
def lookupPathGo : PyVal → List LC → Option PyVal
  | cur, [] => some cur
  | cur, part :: rest =>
    match cur with
    | .dict kvs =>
      match dictGet kvs part with
      | some v => lookupPathGo v rest
      | Option.none => Option.none
    | _ => Option.none

def lookupPath (m : List (LC × PyVal)) (path : LC) : Option PyVal :=
  lookupPathGo (.dict m) (List.splitOn '.' path)

/-- `_contains_forbidden_syntax` (resolution.py:63). -/
def containsForbidden (value : LC) : Bool :=
  containsSub value ['$', '{'] || containsSub value ['{', '%'] ||
  containsSub value ['%', '}'] || containsSub value ['{', '#'] ||
  containsSub value ['#', '}'] || containsSub value ['{', '}']

def openPat : LC := ['{', '{']
def closePat : LC := ['}', '}']

/-- `path.split(".", 1)[0]`. -/
def pathRoot (path : LC) : LC := path.takeWhile (· ≠ '.')

/-- The `allowed_roots` check shared by `_render_string` and
`_render_string_or_typed`: `None` means unrestricted. -/
def rootAllowed (roots : Option (List LC)) (path : LC) : Bool :=
  match roots with
  | Option.none => true
  | some rs => rs.contains (pathRoot path)

/-- One lookup-and-substitute of `_render_string`: given the stripped token,
produce the substituted piece (lines 359-385 of resolution.py). -/
def renderToken (m : List (LC × PyVal)) (strict : Bool) (roots : Option (List LC))
    (token : LC) : Except RErr LC :=
  let pd : LC × Option LC :=
    match splitFirstSub token [':'] with
    | some (p, d) => (pyStrip p, some d)
    | Option.none => (pyStrip token, Option.none)
  let path := pd.1
  if !(isValidPath path) then Except.error (.syn (lc "_is_valid_path False"))
  else if !(rootAllowed roots path) then Except.error (.syn (lc "allowed_roots"))
  else
    match lookupPath m path with
    | some r =>
      if pyEmptyStr r then
        match pd.2 with
        | some d => Except.ok d
        | Option.none =>
          if strict then Except.error (.missingKey path) else Except.ok []
      else Except.ok (pyStr r)
    | Option.none =>
      match pd.2 with
      | some d => Except.ok d
      | Option.none =>
        if strict then Except.error (.missingKey path) else Except.ok []

/-- The scanning `while` loop of `_render_string` (resolution.py:336-388),
expressed on the unprocessed tail of the string.  The `fuel` argument only
makes the recursion structural (each iteration strictly shortens the tail,
so any `fuel ≥ rest.length` gives the same result — `renderLoopF_congr`);
the zero-fuel branch is unreachable from `renderLoop`. -/
def renderLoopF (m : List (LC × PyVal)) (strict : Bool) (roots : Option (List LC)) :
    Nat → LC → Except RErr LC
  | 0, rest => Except.ok rest
  | fuel + 1, rest =>
    match splitFirstSub rest openPat with
    | Option.none => Except.ok rest
    | some (before, afterOpen) =>
      if containsSub before closePat then
        Except.error (.syn (lc "premature_close <> -1"))
      else
        match splitFirstSub afterOpen closePat with
        | Option.none => Except.error (.syn (lc "missing_close <> -1"))
        | some (inner, afterClose) =>
          let token := pyStrip inner
          if token = [] || token.contains '{' || token.contains '}' then
            Except.error (.syn (lc "Empty token or nested braces are not allowed."))
          else
            match renderToken m strict roots token with
            | Except.error e => Except.error e
            | Except.ok piece =>
              match renderLoopF m strict roots fuel afterClose with
              | Except.error e => Except.error e
              | Except.ok out => Except.ok (before ++ piece ++ out)

def renderLoop (m : List (LC × PyVal)) (strict : Bool) (roots : Option (List LC))
    (rest : LC) : Except RErr LC :=
  renderLoopF m strict roots rest.length rest

theorem renderLoopF_congr (m : List (LC × PyVal)) (strict : Bool)
    (roots : Option (List LC)) :
    ∀ f1 f2 rest, rest.length ≤ f1 → rest.length ≤ f2 →
      renderLoopF m strict roots f1 rest = renderLoopF m strict roots f2 rest := by
  intro f1
  induction f1 with
  | zero =>
    intro f2 rest h1 _
    have : rest = [] := List.eq_nil_of_length_eq_zero (Nat.le_zero.mp h1)
    subst this
    cases f2 with
    | zero => rfl
    | succ f2' =>
      rw [renderLoopF, renderLoopF]
      rfl
  | succ f1' ih =>
    intro f2 rest h1 h2
    cases f2 with
    | zero =>
      have : rest = [] := List.eq_nil_of_length_eq_zero (Nat.le_zero.mp h2)
      subst this
      rw [renderLoopF, renderLoopF]
      rfl
    | succ f2' =>
      rw [renderLoopF, renderLoopF]
      cases hs : splitFirstSub rest openPat with
      | none => rfl
      | some p =>
        obtain ⟨before, afterOpen⟩ := p
        by_cases hb : containsSub before closePat
        · simp [hb]
        · simp only [hb, Bool.false_eq_true, if_false]
          cases hc : splitFirstSub afterOpen closePat with
          | none => rfl
          | some q =>
            obtain ⟨inner, afterClose⟩ := q
            have hlen1 := splitFirstSub_length hs
            have hlen2 := splitFirstSub_length hc
            simp only [openPat, closePat, List.length_cons, List.length_nil] at hlen1 hlen2
            have hrec : renderLoopF m strict roots f1' afterClose =
                renderLoopF m strict roots f2' afterClose := by
              apply ih
              · omega
              · omega
            simp only [hrec]

/-- `_render_string` (resolution.py:314): forbidden-syntax gate, fast path,
scan loop, and the post-render forbidden-syntax gate. -/
def renderString (value : LC) (m : List (LC × PyVal)) (strict : Bool)
    (roots : Option (List LC)) : Except RErr LC :=
  if containsForbidden value then
    Except.error (.syn (lc "_contains_forbidden_syntax"))
  else if !(containsSub value openPat) && !(containsSub value closePat) then
    Except.ok value
  else
    match renderLoop m strict roots value with
    | Except.error e => Except.error e
    | Except.ok rendered =>
      if containsForbidden rendered then
        Except.error (.syn (lc "_contains_forbidden_syntax"))
      else Except.ok rendered

/-- Public `render_string` (resolution.py:77): strict, unrestricted roots. -/
def render_string (value : LC) (mapping : List (LC × PyVal)) : Except RErr LC :=
  renderString value mapping true Option.none

/-! ### `_STANDALONE_TOKEN_RE` (resolution.py:195)

`^\{\{\s*([A-Za-z_][A-Za-z0-9_]*(?:\.[A-Za-z_][A-Za-z0-9_]*)*)(?:\:([^}]*))?\s*\}\}$`

The regex is compiled into a deterministic parser.  Since the `\s*`, ident,
`[^}]*` and brace classes are pairwise disjoint at each decision point,
greedy matching without backtracking is exact; `$` matches at the end of the
string or just before one final newline (Python `re` semantics). -/

def reIdentStart (c : Char) : Bool :=
  ('A' ≤ c && c ≤ 'Z') || ('a' ≤ c && c ≤ 'z') || c = '_'

def reIdentChar (c : Char) : Bool := reIdentStart c || ('0' ≤ c && c ≤ '9')

/-- `re` class `\s` (ASCII fragment, as elsewhere). -/
def reWs (c : Char) : Bool := pyIsSpace c

/-- Python `$`: end of string, or just before a single trailing newline. -/
def dollarEnd (r : LC) : Bool := r = [] || r = ['\n']

def parseIdent : LC → Option (LC × LC)
  | [] => Option.none
  | c :: t =>
    if reIdentStart c then some (c :: t.takeWhile reIdentChar, t.dropWhile reIdentChar)
    else Option.none

/-- `(?:\.[A-Za-z_][A-Za-z0-9_]*)*`, leftover returned for the continuation.
The `fuel` makes the recursion structural; each iteration strictly shortens
the input, and at fuel zero the input is empty, where returning `(acc, r)`
agrees with the stop case (`parsePathLoopF_congr`). -/
def parsePathLoopF : Nat → LC → LC → LC × LC
  | 0, acc, r => (acc, r)
  | _ + 1, acc, [] => (acc, [])
  | _ + 1, acc, [c0] => (acc, [c0])
  | fuel + 1, acc, c0 :: c :: t =>
    if c0 = '.' && reIdentStart c then
      parsePathLoopF fuel (acc ++ '.' :: c :: t.takeWhile reIdentChar) (t.dropWhile reIdentChar)
    else (acc, c0 :: c :: t)

def parsePathLoop (acc : LC) (r : LC) : LC × LC := parsePathLoopF r.length acc r

theorem parsePathLoopF_congr :
    ∀ f1 f2 acc r, r.length ≤ f1 → r.length ≤ f2 →
      parsePathLoopF f1 acc r = parsePathLoopF f2 acc r := by
  intro f1
  induction f1 with
  | zero =>
    intro f2 acc r h1 _
    have : r = [] := List.eq_nil_of_length_eq_zero (Nat.le_zero.mp h1)
    subst this
    cases f2 with
    | zero => rfl
    | succ f2' => rfl
  | succ f1' ih =>
    intro f2 acc r h1 h2
    cases f2 with
    | zero =>
      have : r = [] := List.eq_nil_of_length_eq_zero (Nat.le_zero.mp h2)
      subst this
      rfl
    | succ f2' =>
      cases r with
      | nil => rfl
      | cons c0 r1 =>
        cases r1 with
        | nil => rfl
        | cons c t =>
          rw [parsePathLoopF, parsePathLoopF]
          by_cases hi : (c0 = '.' && reIdentStart c) = true
          · simp only [hi, if_true]
            apply ih
            · have := dropWhileLen reIdentChar t
              simp at h1
              omega
            · have := dropWhileLen reIdentChar t
              simp at h2
              omega
          · simp only [hi, Bool.false_eq_true, if_false]

/-- The final `\}\}$` of the regex, after an optional captured default. -/
def parseCloseEnd (path : LC) (d : Option LC) (r : LC) : Option (LC × Option LC) :=
  match r with
  | c1 :: c2 :: r5 =>
    if c1 = '}' && c2 = '}' && dollarEnd r5 then some (path, d) else Option.none
  | _ => Option.none

/-- `(?:\:([^}]*))?\s*\}\}$`: an immediate colon captures `[^}]*` greedily
(whitespace is consumed by it, so the following `\s*` is empty); without a
colon, `\s*` then `\}\}`. -/
def parseStandaloneEnd (path r3 : LC) : Option (LC × Option LC) :=
  match r3 with
  | c :: r4 =>
    if c = ':' then
      parseCloseEnd path (some (r4.takeWhile (fun x => !(x = '}'))))
        (r4.dropWhile (fun x => !(x = '}')))
    else parseCloseEnd path Option.none (r3.dropWhile reWs)
  | [] => parseCloseEnd path Option.none []

/-- `_STANDALONE_TOKEN_RE.match(value)`: `some (path, default)` on a match
(`default = none` without a colon, the captured `[^}]*` otherwise). -/
def parseStandalone (value : LC) : Option (LC × Option LC) :=
  match value with
  | c1 :: c2 :: r0 =>
    if c1 = '{' && c2 = '{' then
      match parseIdent (r0.dropWhile reWs) with
      | Option.none => Option.none
      | some (id1, r2) =>
        let pr := parsePathLoop id1 r2
        parseStandaloneEnd pr.1 pr.2
    else Option.none
  | _ => Option.none

/-- `_is_standalone_token` (resolution.py:203): strip, then match. -/
def isStandaloneToken (value : LC) : Bool := (parseStandalone (pyStrip value)).isSome

/-- `_render_string_or_typed` (resolution.py:398): forbidden gate, fast
path, typed standalone-token path, inline fallback to `_render_string`. -/
def renderStringOrTyped (value : LC) (m : List (LC × PyVal)) (strict : Bool)
    (roots : Option (List LC)) : Except RErr PyVal :=
  if containsForbidden value then
    Except.error (.syn (lc "_contains_forbidden_syntax"))
  else if !(containsSub value openPat) && !(containsSub value closePat) then
    Except.ok (.str value)
  else
    match parseStandalone value with
    | some (path, dflt) =>
      if !(isValidPath path) then Except.error (.syn (lc "_is_valid_path False"))
      else if !(rootAllowed roots path) then Except.error (.syn (lc "allowed_roots"))
      else
        match lookupPath m path with
        | some r =>
          if pyEmptyStr r then
            match dflt with
            | some d => Except.ok (.str d)
            | Option.none =>
              if strict then Except.error (.missingKey path) else Except.ok (.str [])
          else Except.ok r
        | Option.none =>
          match dflt with
          | some d => Except.ok (.str d)
          | Option.none =>
            if strict then Except.error (.missingKey path) else Except.ok (.str [])
    | Option.none =>
      match renderString value m strict roots with
      | Except.error e => Except.error e
      | Except.ok s => Except.ok (.str s)

/-! `_walk_and_render` (resolution.py:448) over nested values.  Tuples are
omitted from `PyVal`; their branch is identical to the list branch. -/
mutual
/-- `_walk_and_render` on a single value. -/
def walkAndRender (obj : PyVal) (m : List (LC × PyVal)) (strict : Bool)
    (roots : Option (List LC)) : Except RErr PyVal :=
  match obj with
  | .str s => renderStringOrTyped s m strict roots
  | .dict kvs =>
    match walkDict kvs m strict roots with
    | Except.error e => Except.error e
    | Except.ok kvs' => Except.ok (.dict kvs')
  | .list xs =>
    match walkList xs m strict roots with
    | Except.error e => Except.error e
    | Except.ok xs' => Except.ok (.list xs')
  | v => Except.ok v

def walkDict (kvs : List (LC × PyVal)) (m : List (LC × PyVal)) (strict : Bool)
    (roots : Option (List LC)) : Except RErr (List (LC × PyVal)) :=
  match kvs with
  | [] => Except.ok []
  | (k, v) :: rest =>
    match walkAndRender v m strict roots with
    | Except.error e => Except.error e
    | Except.ok v' =>
      match walkDict rest m strict roots with
      | Except.error e => Except.error e
      | Except.ok rest' => Except.ok ((k, v') :: rest')

def walkList (xs : List PyVal) (m : List (LC × PyVal)) (strict : Bool)
    (roots : Option (List LC)) : Except RErr (List PyVal) :=
  match xs with
  | [] => Except.ok []
  | v :: rest =>
    match walkAndRender v m strict roots with
    | Except.error e => Except.error e
    | Except.ok v' =>
      match walkList rest m strict roots with
      | Except.error e => Except.error e
      | Except.ok rest' => Except.ok (v' :: rest')
end

/-- An env snapshot (Python `dict[str, str]`) as a `PyVal` mapping. -/
def envDict (env : List (LC × LC)) : PyVal :=
  .dict (env.map (fun kv => (kv.1, .str kv.2)))

/-- `resolve_resource_templates` (resolution.py:92): only `env` is exposed. -/
def resolveResourceTemplates (obj : PyVal) (envSnapshot : List (LC × LC)) :
    Except RErr PyVal :=
  walkAndRender obj [(lc "env", envDict envSnapshot)] true (some [lc "env"])

/-! ## Decode pipeline of `resolve_resource` (resolution.py:125-312) -/

/-- Python truthiness for the values of `PyVal` (`if not decode_spec`). -/
def pyTruthy (v : PyVal) : Bool :=
  match v with
  | .none => false
  | .bool b => b
  | .int n => !(n = 0)
  | .str s => !s.isEmpty
  | .list xs => !xs.isEmpty
  | .dict kvs => !kvs.isEmpty

/-- Errors escaping `resolve_resource`: resolver errors and `RuntimeError`. -/
inductive PyErr where
  | resolver (e : RErr)
  | runtime (msg : LC)

mutual
/-- `walk_bool_map` inside `_collect_decode_requests` (resolution.py:230):
collect dotted prefixes whose leaf is `True`.  Keys of a `PyVal.dict` are
strings by construction, so the non-string-key branch is unrepresentable.
`0 == False` holds in Python, so an `int 0` leaf is ignored like `False`. -/
def walkBoolMap (node : PyVal) (pre : LC) : Except RErr (List LC) :=
  match node with
  | .dict kvs => walkBoolMapKvs kvs pre
  | .bool true =>
    if pre = [] then Except.error (.syn (lc "Node is true, and not prefix"))
    else Except.ok [pre]
  | .bool false => Except.ok []
  | .none => Except.ok []
  | .int n => if n = 0 then Except.ok [] else Except.error (.syn (lc "Node unknow."))
  | _ => Except.error (.syn (lc "Node unknow."))

/-- The dict branch of `walk_bool_map`. -/
def walkBoolMapKvs (kvs : List (LC × PyVal)) (pre : LC) : Except RErr (List LC) :=
  match kvs with
  | [] => Except.ok []
  | (k, v) :: rest =>
    let newPre := if pre = [] then k else pre ++ '.' :: k
    match walkBoolMap v newPre with
    | Except.error e => Except.error e
    | Except.ok ps =>
      match walkBoolMapKvs rest pre with
      | Except.error e => Except.error e
      | Except.ok ps' => Except.ok (ps ++ ps')
end

/-- Items of the `*_paths` list branch of `_collect_decode_requests`
(resolution.py:261-263): each must be a non-empty string. -/
def collectPathItems (sect : LC) (errName : LC) :
    List PyVal → Except RErr (List (LC × LC))
  | [] => Except.ok []
  | .str p :: rest =>
    if p = [] then Except.error (.syn errName)
    else
      match collectPathItems sect errName rest with
      | Except.error e => Except.error e
      | Except.ok out => Except.ok ((sect, p) :: out)
  | _ :: _ => Except.error (.syn errName)

/-- The `*_paths` list branch of `_collect_decode_requests`
(resolution.py:257-273). -/
def collectPathList (sect : LC) (errName : LC) (v : PyVal) :
    Except RErr (List (LC × LC)) :=
  match v with
  | .list ps => collectPathItems sect errName ps
  | _ => Except.error (.syn errName)

/-- Order-preserving de-duplication (resolution.py:276-282). -/
def dedupePairs (l : List (LC × LC)) : List (LC × LC) :=
  (l.foldl (fun acc item => if acc.contains item then acc else acc ++ [item]) [])

/-- `_collect_decode_requests` (resolution.py:208). -/
def collectDecodeRequests (decodeSpec : PyVal) : Except RErr (List (LC × LC)) :=
  if !(pyTruthy decodeSpec) then Except.ok []
  else
    match decodeSpec with
    | .dict kvs =>
      let fromSection : LC → Except RErr (List (LC × LC)) := fun sect =>
        match dictGet kvs sect with
        | some node =>
          match walkBoolMap node [] with
          | Except.error e => Except.error e
          | Except.ok ps => Except.ok (ps.map (fun p => (sect, p)))
        | Option.none => Except.ok []
      match fromSection (lc "config") with
      | Except.error e => Except.error e
      | Except.ok rc =>
        match fromSection (lc "options") with
        | Except.error e => Except.error e
        | Except.ok ro =>
          let fromPaths : LC → LC → Except RErr (List (LC × LC)) := fun key sect =>
            match dictGet kvs key with
            | some v => collectPathList sect key v
            | Option.none => Except.ok []
          match fromPaths (lc "config_paths") (lc "config") with
          | Except.error e => Except.error e
          | Except.ok rcp =>
            match fromPaths (lc "options_paths") (lc "options") with
            | Except.error e => Except.error e
            | Except.ok rop => Except.ok (dedupePairs (rc ++ ro ++ rcp ++ rop))
    | _ => Except.error (.syn (lc "not a Mapping"))

/-- `_get_by_path` (resolution.py:285): missing is conflated with `None`,
exactly as in Python. -/
def getByPathGo : PyVal → List LC → PyVal
  | cur, [] => cur
  | cur, part :: rest =>
    match cur with
    | .dict kvs =>
      match dictGet kvs part with
      | some v => getByPathGo v rest
      | Option.none => .none
    | _ => .none

def getByPath (root : PyVal) (path : LC) : PyVal :=
  getByPathGo root (List.splitOn '.' path)

/-- `_set_by_path` (resolution.py:297): create missing intermediate dicts,
leave a non-mapping root untouched. -/
def setParts (kvs : List (LC × PyVal)) (v : PyVal) : List LC → List (LC × PyVal)
  | [] => kvs
  | [last] => dictSet kvs last v
  | part :: rest =>
    match dictGet kvs part with
    | some (.dict sub) => dictSet kvs part (.dict (setParts sub v rest))
    | _ => dictSet kvs part (.dict (setParts [] v rest))

def setByPath (root : PyVal) (path : LC) (v : PyVal) : PyVal :=
  match root with
  | .dict kvs => .dict (setParts kvs v (List.splitOn '.' path))
  | r => r

/-- The secrets hook module as `resolve_resource` sees it: the two
attributes after `getattr`/`callable` filtering (`none` = absent or not
callable). -/
structure SetEnvs where
  expandEnv : Option (List (LC × LC) → List (LC × LC))
  decode : Option (LC → LC)

/-- The raw-value concatenation rule of `resolve_resource`
(resolution.py:170-175): first violation raises. -/
def decodeConcatCheck (rawConfig rawOptions : PyVal) :
    List (LC × LC) → Except PyErr Unit
  | [] => Except.ok ()
  | (sect, path) :: rest =>
    let rawRoot := if sect = lc "config" then rawConfig else rawOptions
    match getByPath rawRoot path with
    | .str s =>
      if containsSub s openPat || containsSub s closePat then
        if !(isStandaloneToken s) then
          Except.error (.resolver (.syn (lc "raw decode concatenation")))
        else decodeConcatCheck rawConfig rawOptions rest
      else decodeConcatCheck rawConfig rawOptions rest
    | _ => decodeConcatCheck rawConfig rawOptions rest

/-- The decode application loop of `resolve_resource`
(resolution.py:179-186). -/
def applyDecode (dec : LC → LC) (resolved : List (LC × PyVal)) :
    List (LC × LC) → List (LC × PyVal)
  | [] => resolved
  | (sect, path) :: rest =>
    match dictGet resolved sect with
    | Option.none => applyDecode dec resolved rest
    | some rootVal =>
      match getByPath rootVal path with
      | .str s =>
        applyDecode dec (dictSet resolved sect (setByPath rootVal path (.str (dec s)))) rest
      | _ => applyDecode dec resolved rest

/-- Template rendering of one section of a resource dict (resolution.py
151-155): render the subtree when the key is present. -/
def renderResourceSection (envSnapshot : List (LC × LC))
    (res : List (LC × PyVal)) (sect : LC) : Except PyErr (List (LC × PyVal)) :=
  match dictGet res sect with
  | some subtree =>
    match resolveResourceTemplates subtree envSnapshot with
    | Except.error e => Except.error (.resolver e)
    | Except.ok rendered => Except.ok (dictSet res sect rendered)
  | Option.none => Except.ok res

/-- Steps 4-5 of `resolve_resource` after the env snapshot is fixed:
template rendering of `config`/`options`, decode-request collection, the
concatenation rule and the decode loop (resolution.py:144-188). -/
def resolveResourceBody (resourceDict : List (LC × PyVal))
    (envSnapshot : List (LC × LC)) (dec : Option (LC → LC)) :
    Except PyErr (List (LC × PyVal) × List LC) :=
  let resolved0 := resourceDict
  let rawConfig := (dictGet resolved0 (lc "config")).getD .none
  let rawOptions := (dictGet resolved0 (lc "options")).getD .none
  match renderResourceSection envSnapshot resolved0 (lc "config") with
  | Except.error e => Except.error e
  | Except.ok resolved1 =>
    match renderResourceSection envSnapshot resolved1 (lc "options") with
    | Except.error e => Except.error e
    | Except.ok resolved2 =>
      let decodeSpec := (dictGet resolved2 (lc "decode")).getD .none
      match collectDecodeRequests decodeSpec with
      | Except.error e => Except.error (.resolver e)
      | Except.ok requests =>
        if requests = [] then Except.ok (resolved2, [])
        else
          match dec with
          | Option.none =>
            Except.ok (resolved2,
              [lc "decode requested but set_envs.decode missing; leaving value as-is"])
          | some decFn =>
            match decodeConcatCheck rawConfig rawOptions requests with
            | Except.error e => Except.error e
            | Except.ok _ => Except.ok (applyDecode decFn resolved2 requests, [])

/-- `resolve_resource` (resolution.py:125).  `os.environ` (read when `env`
is `None`) is passed explicitly as `osEnviron`; the `log.warning` side
channel is returned as a list of warning texts next to the result. -/
def resolveResource (resourceDict : List (LC × PyVal)) (env : Option (List (LC × LC)))
    (osEnviron : List (LC × LC)) (setEnvs : Option SetEnvs) :
    Except PyErr (List (LC × PyVal) × List LC) :=
  let envSnapshot0 := match env with
    | some e => e
    | Option.none => osEnviron
  match setEnvs with
  | some se =>
    match se.expandEnv, se.decode with
    | some expand, some dec =>
      let envSnapshot := expand envSnapshot0
      resolveResourceBody resourceDict envSnapshot (some dec)
    | _, _ =>
      Except.error (.runtime (lc "set_envs_module must define callable expand_env and decode"))
  | Option.none => resolveResourceBody resourceDict envSnapshot0 Option.none

/-! ## Secrets hook loader (`aetherflow/core/runtime/secrets.py`) -/

/-- An imported Python module as the loader inspects it: for each attribute
name from `dir(m)`, whether `callable(getattr(m, name))` holds. -/
structure ModAttr where
  name : LC
  callable : Bool

abbrev PyModule := List ModAttr

/-- Lexicographic (code-point) comparison of Python strings. -/
def strLe (a b : LC) : Bool :=
  match a, b with
  | [], _ => true
  | _ :: _, [] => false
  | c :: a', d :: b' => if c = d then strLe a' b' else decide (c < d)

/-- Stable insert: `x` goes after every earlier element `y` with `le y x`. -/
def stableInsert (le : α → α → Bool) (x : α) : List α → List α
  | [] => [x]
  | y :: ys => if le y x then y :: stableInsert le x ys else x :: y :: ys

/-- Python `sorted(l, key=...)` as a stable sort (any stable sort computes
the same list on a total preorder; insertion sort keeps the kernel able to
evaluate it). -/
def pySorted (le : α → α → Bool) (l : List α) : List α :=
  l.foldl (fun acc x => stableInsert le x acc) []

/-- The public callables collected by `_enforce_set_envs_contract`
(secrets.py:48-59). -/
def publicCallables (m : PyModule) : List LC :=
  (m.filter (fun a =>
    !(a.name.head? = some '_') && !(a.name = lc "decode") &&
    !(a.name = lc "expand_env") && a.callable)).map (·.name)

/-- `_enforce_set_envs_contract` (secrets.py:37): raise `TypeError` naming
the sorted offending callables if any public callable other than
`decode`/`expand_env` exists. -/
def enforceSetEnvsContract (m : PyModule) : Except (List LC) Unit :=
  let pc := publicCallables m
  if pc = [] then Except.ok () else Except.error (pySorted strLe pc)

def moduleCallable (m : PyModule) (name : LC) : Bool :=
  m.any (fun a => a.name = name && a.callable)

/-- What `_load_from_module` returns, abstracted to the shape the claims
need: whether the optional `expand_env` hook was found callable. -/
structure SecretsProvider where
  expandEnvPresent : Bool

/-- `_load_from_module` (secrets.py:68): contract enforcement, then the
required `decode`, then the optional `expand_env`.  (`_load_from_path` is
identical after the file import.)  Errors carry the offending-callable list
or the missing-decode message. -/
def loadFromModule (m : PyModule) : Except (List LC) SecretsProvider :=
  match enforceSetEnvsContract m with
  | Except.error names => Except.error names
  | Except.ok _ =>
    if moduleCallable m (lc "decode") then
      Except.ok ⟨moduleCallable m (lc "expand_env")⟩
    else
      Except.error [lc "Secrets module must define callable decode(value: str) -> str"]

/-! ## Validation: the decode-concatenation scan
(`aetherflow/core/validation.py`) -/

/-- A `FlowValidationIssue` (validation.py:24). -/
structure Issue where
  code : LC
  loc : LC
  msg : LC

/-- Validation's `_is_standalone_token` (validation.py:71):
`re.fullmatch(r"\s*\{\{\s*IDENT(\.IDENT)*(?::[^}]*)?\s*\}\}\s*", s)` —
unlike the runtime regex it tolerates surrounding whitespace via explicit
`\s*` and uses full-match instead of `$`. -/
def valIsStandaloneToken (s : LC) : Bool :=
  match s.dropWhile reWs with
  | '{' :: '{' :: r0 =>
    match parseIdent (r0.dropWhile reWs) with
    | Option.none => false
    | some (id1, r2) =>
      let pr := parsePathLoop id1 r2
      match pr.2 with
      | ':' :: r4 =>
        match r4.dropWhile (fun c => !(c = '}')) with
        | '}' :: '}' :: r6 => (r6.dropWhile reWs).isEmpty
        | _ => false
      | r3 =>
        match r3.dropWhile reWs with
        | '}' :: '}' :: r5 => (r5.dropWhile reWs).isEmpty
        | _ => false
  | _ => false

/-- Validation's `_get_by_path` (validation.py:76): empty path gives `None`. -/
def valGetByPath (root : PyVal) (path : LC) : PyVal :=
  if path = [] then .none else getByPathGo root (List.splitOn '.' path)

mutual
/-- Validation's `walk_bool_map` (validation.py:96): like the runtime one
but silently ignoring every malformed leaf. -/
def valWalkBoolMap (node : PyVal) (pre : LC) : List LC :=
  match node with
  | .dict kvs => valWalkBoolMapKvs kvs pre
  | .bool true => if pre = [] then [] else [pre]
  | _ => []

def valWalkBoolMapKvs (kvs : List (LC × PyVal)) (pre : LC) : List LC :=
  match kvs with
  | [] => []
  | (k, v) :: rest =>
    let newPre := if pre = [] then k else pre ++ '.' :: k
    valWalkBoolMap v newPre ++ valWalkBoolMapKvs rest pre
end

/-- Validation's `_collect_decode_requests` (validation.py:88): no errors,
no de-duplication. -/
def valCollectDecodeRequests (decodeSpec : PyVal) : List (LC × LC) :=
  if !(pyTruthy decodeSpec) then []
  else
    match decodeSpec with
    | .dict kvs =>
      let fromSection : LC → List (LC × LC) := fun sect =>
        match dictGet kvs sect with
        | some node => (valWalkBoolMap node []).map (fun p => (sect, p))
        | Option.none => []
      let fromPaths : LC → LC → List (LC × LC) := fun key sect =>
        match dictGet kvs key with
        | some (.list ps) =>
          ps.foldr (fun p acc =>
            match p with
            | .str s => if s = [] then acc else (sect, s) :: acc
            | _ => acc) []
        | _ => []
      fromSection (lc "config") ++ fromSection (lc "options") ++
        fromPaths (lc "config_paths") (lc "config") ++
        fromPaths (lc "options_paths") (lc "options")
    | _ => []

/-- The fixed decode-concatenation message recorded by the validation scan
(validation.py:236). -/
def decodeConcatMsg : LC :=
  lc "Decode target must be a standalone template token like '{{TOKEN}}' (no prefix/suffix)."

/-- Python `x or y` for `PyVal` (used for `r.config or {}`). -/
def pyOrDict (v : PyVal) : PyVal := if pyTruthy v then v else .dict []

/-- Whether one validation decode request is a raw templated value that is
not a standalone token (validation.py:233-235). -/
def valDecodeViolation (rawConfig rawOptions : PyVal) (sp : LC × LC) : Bool :=
  match valGetByPath (if sp.1 = lc "config" then rawConfig else rawOptions) sp.2 with
  | .str s => (containsSub s openPat || containsSub s closePat) && !(valIsStandaloneToken s)
  | _ => false

/-- The issue recorded for a violating decode target (validation.py:236-244). -/
def decodeConcatIssue (rname : LC) (sp : LC × LC) : Issue :=
  { code := lc "template:syntax",
    loc := lc "resources." ++ rname ++ '.' :: sp.1 ++ '.' :: sp.2,
    msg := decodeConcatMsg }

def scanResourceDecodeConcat (rname : LC) (config options decodeSpec : PyVal) :
    List Issue :=
  let requests := valCollectDecodeRequests decodeSpec
  if requests = [] then []
  else
    let rawConfig := pyOrDict config
    let rawOptions := pyOrDict options
    requests.foldr (fun (sp : LC × LC) acc =>
      if valDecodeViolation rawConfig rawOptions sp then decodeConcatIssue rname sp :: acc
      else acc) []

/-! ## Bundles: fingerprint and sync (`aetherflow/core/bundles.py`)

SHA-256 is implemented in full (FIPS 180-4) over byte lists; `hashlib`
delegates to the same function. -/

def w32 (n : Nat) : Nat := n % 4294967296

def rotr32 (x n : Nat) : Nat := w32 (x >>> n ||| x <<< (32 - n))

def shaSmall0 (x : Nat) : Nat := rotr32 x 7 ^^^ rotr32 x 18 ^^^ (x >>> 3)
def shaSmall1 (x : Nat) : Nat := rotr32 x 17 ^^^ rotr32 x 19 ^^^ (x >>> 10)
def shaBig0 (x : Nat) : Nat := rotr32 x 2 ^^^ rotr32 x 13 ^^^ rotr32 x 22
def shaBig1 (x : Nat) : Nat := rotr32 x 6 ^^^ rotr32 x 11 ^^^ rotr32 x 25

def shaK : List Nat :=
  [1116352408, 1899447441, 3049323471, 3921009573, 961987163, 1508970993,
   2453635748, 2870763221, 3624381080, 310598401, 607225278, 1426881987,
   1925078388, 2162078206, 2614888103, 3248222580, 3835390401, 4022224774,
   264347078, 604807628, 770255983, 1249150122, 1555081692, 1996064986,
   2554220882, 2821834349, 2952996808, 3210313671, 3336571891, 3584528711,
   113926993, 338241895, 666307205, 773529912, 1294757372, 1396182291,
   1695183700, 1986661051, 2177026350, 2456956037, 2730485921, 2820302411,
   3259730800, 3345764771, 3516065817, 3600352804, 4094571909, 275423344,
   430227734, 506948616, 659060556, 883997877, 958139571, 1322822218,
   1537002063, 1747873779, 1955562222, 2024104815, 2227730452, 2361852424,
   2428436474, 2756734187, 3204031479, 3329325298]

def shaH0 : List Nat :=
  [1779033703, 3144134277, 1013904242, 2773480762,
   1359893119, 2600822924, 528734635, 1541459225]

def be64 (n : Nat) : List Nat :=
  (List.range 8).map (fun i => n >>> ((7 - i) * 8) &&& 255)

def shaPad (msg : List Nat) : List Nat :=
  let len := msg.length
  let r := (len + 1) % 64
  let z := if r ≤ 56 then 56 - r else 56 + 64 - r
  msg ++ 128 :: List.replicate z 0 ++ be64 (len * 8)

def bytesToWords : List Nat → List Nat
  | b0 :: b1 :: b2 :: b3 :: rest =>
    (((b0 * 256 + b1) * 256 + b2) * 256 + b3) :: bytesToWords rest
  | _ => []

/-- Message schedule: extend 16 words to 64. -/
def shaSchedule (w16 : List Nat) : List Nat :=
  (List.range 48).foldl (fun w _ =>
    let n := w.length
    w ++ [w32 (shaSmall1 (w.getD (n - 2) 0) + w.getD (n - 7) 0 +
               shaSmall0 (w.getD (n - 15) 0) + w.getD (n - 16) 0)]) w16

def shaCompressStep (st : List Nat) (kw : Nat × Nat) : List Nat :=
  match st with
  | [a, b, c, d, e, f, g, h] =>
    let ch := (e &&& f) ^^^ ((e ^^^ 4294967295) &&& g)
    let maj := (a &&& b) ^^^ (a &&& c) ^^^ (b &&& c)
    let t1 := w32 (h + shaBig1 e + ch + kw.1 + kw.2)
    let t2 := w32 (shaBig0 a + maj)
    [w32 (t1 + t2), a, b, c, w32 (d + t1), e, f, g]
  | other => other

def shaCompressChunk (h : List Nat) (chunk : List Nat) : List Nat :=
  let w := shaSchedule (bytesToWords chunk)
  let st := (shaK.zip w).foldl shaCompressStep h
  List.zipWith (fun x y => w32 (x + y)) h st

/-- 64-byte chunking; the fuel only makes the recursion structural (the
input strictly shrinks), any `fuel ≥ l.length` computes the full result. -/
def chunks64F : Nat → List Nat → List (List Nat)
  | _, [] => []
  | 0, _ :: _ => []
  | fuel + 1, l => l.take 64 :: chunks64F fuel (l.drop 64)

def chunks64 (l : List Nat) : List (List Nat) := chunks64F l.length l

def hexDigitChar (n : Nat) : Char :=
  if n < 10 then Char.ofNat (48 + n) else Char.ofNat (87 + n)

def hex8 (n : Nat) : LC :=
  (List.range 8).map (fun i => hexDigitChar (n >>> ((7 - i) * 4) &&& 15))

/-- `hashlib.sha256(bytes).hexdigest()`. -/
def sha256Hex (msg : List Nat) : LC :=
  ((chunks64 (shaPad msg)).foldl shaCompressChunk shaH0).flatMap hex8

/-- UTF-8 encoding (`str.encode("utf-8")`). -/
def utf8Char (c : Char) : List Nat :=
  let n := c.toNat
  if n < 0x80 then [n]
  else if n < 0x800 then [0xC0 ||| (n >>> 6), 0x80 ||| (n &&& 0x3F)]
  else if n < 0x10000 then
    [0xE0 ||| (n >>> 12), 0x80 ||| ((n >>> 6) &&& 0x3F), 0x80 ||| (n &&& 0x3F)]
  else
    [0xF0 ||| (n >>> 18), 0x80 ||| ((n >>> 12) &&& 0x3F),
     0x80 ||| ((n >>> 6) &&& 0x3F), 0x80 ||| (n &&& 0x3F)]

def utf8 (s : LC) : List Nat := s.flatMap utf8Char

/-- `json.dumps` string escaping with `ensure_ascii=False`. -/
def jsonEscChar (c : Char) : LC :=
  if c = '"' then ['\\', '"']
  else if c = '\\' then ['\\', '\\']
  else if c = '\n' then ['\\', 'n']
  else if c = '\t' then ['\\', 't']
  else if c = '\x0d' then ['\\', 'r']
  else if c = '\x08' then ['\\', 'b']
  else if c = '\x0c' then ['\\', 'f']
  else if c.toNat < 32 then
    lc "\\u00" ++ [hexDigitChar (c.toNat >>> 4), hexDigitChar (c.toNat &&& 15)]
  else [c]

def jsonStr (s : LC) : LC := '"' :: s.flatMap jsonEscChar ++ ['"']

/-- `json.dumps(parts, separators=(",", ":"), ensure_ascii=False)` for a
list of string pairs (tuples serialize as two-element arrays). -/
def jsonPairs (ps : List (LC × LC)) : LC :=
  let items := ps.map (fun p => '[' :: jsonStr p.1 ++ ',' :: jsonStr p.2 ++ [']'])
  '[' :: (List.intercalate [','] items) ++ [']']

/-- `RemoteFileMeta` (spec.py:218), restricted to the fields that the
fingerprint and the sync loop read (`path`/`name`/`is_dir` are unused
there).  `mtime` is a Python float modelled as an exact rational. -/
structure RemoteFileMeta where
  relPath : LC
  size : Option Int := Option.none
  mtime : Option ℚ := Option.none
  sha256 : Option LC := Option.none

/-- Python `int(x)`: truncation toward zero. -/
def pyTrunc (q : ℚ) : Int := q.num.tdiv q.den

/-- `_mtime_sig` (bundles.py:433): `if not mtime: return 0` treats both
`None` and `0.0` as falsy; otherwise `int(float(mtime) * 1000)`. -/
def mtimeSig (mtime : Option ℚ) : Int :=
  match mtime with
  | Option.none => 0
  | some q => if q = 0 then 0 else pyTrunc (q * 1000)

/-- Truthiness of the optional `sha256` field (`if m.sha256:`). -/
def shaTruthy (sha : Option LC) : Bool :=
  match sha with
  | some h => !h.isEmpty
  | Option.none => false

/-- The per-file signature of `_fingerprint` (bundles.py:452-455):
`"sha256:<hex>"` when known, else `"sz:<n>|mt_ms:<m>"` (`m.size or 0`). -/
def sigOf (m : RemoteFileMeta) : LC :=
  if shaTruthy m.sha256 then lc "sha256:" ++ m.sha256.getD []
  else
    let sz : Int := match m.size with
      | some n => if n = 0 then 0 else n
      | Option.none => 0
    lc "sz:" ++ intRepr sz ++ lc "|mt_ms:" ++ intRepr (mtimeSig m.mtime)

def metaLe (a b : RemoteFileMeta) : Bool := strLe a.relPath b.relPath

/-- The sorted `(rel_path, signature)` pair list of `_fingerprint`. -/
def fingerprintParts (metas : List RemoteFileMeta) : List (LC × LC) :=
  (pySorted metaLe metas).map (fun m => (m.relPath, sigOf m))

/-- `_fingerprint` (bundles.py:448): SHA-256 of the compact JSON of the
sorted pair list. -/
def fingerprint (metas : List RemoteFileMeta) : LC :=
  sha256Hex (utf8 (jsonPairs (fingerprintParts metas)))

/-! ### The core sync algorithm of `sync_bundle` (bundles.py:857-1005)

The filesystem and remote source are abstracted: `readBytes` returns the
remote bytes by relative path, the content-addressed cache is the set of
sha hexes present, `activeExists` tells whether `active/` exists, and
`oldMap` is `_snapshot_file_map` of the previous snapshot.  Side effects
(remote reads, cache writes, the atomic swap of `active/`) are returned in
an effect record so that claims can state what was and was not touched. -/

/-- A `_snapshot_file_map` entry (bundles.py:493-507). -/
structure SnapEntry where
  sha256 : Option LC := Option.none
  size : Option Int := Option.none
  mtime : Option ℚ := Option.none

structure FetchState where
  cache : List LC
  fetched : List LC
  fileSha : List (LC × LC)
  reads : List LC
  cacheWrites : List LC

def lstripSlash (s : LC) : LC := s.dropWhile (fun c => c = '/')

def snapGet (m : List (LC × SnapEntry)) (k : LC) : Option SnapEntry :=
  match m with
  | [] => Option.none
  | (k', v) :: rest => if k' = k then some v else snapGet rest k

/-- One iteration of the staging loop (bundles.py:923-962). -/
def fetchOne (readBytes : LC → List Nat) (oldMap : List (LC × SnapEntry))
    (st : FetchState) (m : RemoteFileMeta) : Except LC FetchState :=
  let rel := lstripSlash m.relPath
  if shaTruthy m.sha256 then
    let sha := m.sha256.getD []
    if st.cache.contains sha then
      Except.ok { st with fileSha := st.fileSha ++ [(rel, sha)] }
    else
      let b := readBytes rel
      let computed := sha256Hex b
      if !(computed = sha) then Except.error (lc "Checksum mismatch for ")
      else
        Except.ok { st with
          cache := st.cache ++ [sha], fetched := st.fetched ++ [rel],
          fileSha := st.fileSha ++ [(rel, sha)],
          reads := st.reads ++ [rel], cacheWrites := st.cacheWrites ++ [sha] }
  else
    let prev := (snapGet oldMap rel).or (snapGet oldMap m.relPath)
    let prevSha := prev.bind (·.sha256)
    let reuse :=
      match prev, prevSha with
      | some p, some ps =>
        !ps.isEmpty && decide (p.size = m.size) &&
          decide (mtimeSig p.mtime = mtimeSig m.mtime) && st.cache.contains ps
      | _, _ => false
    if reuse then
      Except.ok { st with fileSha := st.fileSha ++ [(rel, prevSha.getD [])] }
    else
      let b := readBytes rel
      let sha := sha256Hex b
      let cache' := if st.cache.contains sha then st.cache else st.cache ++ [sha]
      let writes' := if st.cache.contains sha then st.cacheWrites else st.cacheWrites ++ [sha]
      Except.ok { st with
        cache := cache', fetched := st.fetched ++ [rel],
        fileSha := st.fileSha ++ [(rel, sha)],
        reads := st.reads ++ [rel], cacheWrites := writes' }

def fetchAll (readBytes : LC → List Nat) (oldMap : List (LC × SnapEntry))
    (st : FetchState) : List RemoteFileMeta → Except LC FetchState
  | [] => Except.ok st
  | m :: rest =>
    match fetchOne readBytes oldMap st m with
    | Except.error e => Except.error e
    | Except.ok st' => fetchAll readBytes oldMap st' rest

/-- `strict_fingerprint` enrichment (bundles.py:889-902): hash every meta
lacking a sha, reading and caching its bytes. -/
def enrichStrict (readBytes : LC → List Nat) :
    List RemoteFileMeta → List LC → (List RemoteFileMeta × List LC × List LC)
  | [], cache => ([], cache, [])
  | m :: rest, cache =>
    if shaTruthy m.sha256 then
      let (ms, cache', reads) := enrichStrict readBytes rest cache
      (m :: ms, cache', reads)
    else
      let rel := lstripSlash m.relPath
      let b := readBytes rel
      let sha := sha256Hex b
      let cache1 := if cache.contains sha then cache else cache ++ [sha]
      let (ms, cache', reads) := enrichStrict readBytes rest cache1
      ({ m with sha256 := some sha } :: ms, cache', rel :: reads)

/-- What a sync run did and returned. -/
structure SyncOutcome where
  fingerprint : LC
  changed : Bool
  fetchedFiles : List LC
  reads : List LC
  activeReplaced : Bool

/-- The decision core of `sync_bundle` from the point where the source
listing is known (bundles.py:857-1005): strict enrichment, fingerprint,
early cache-check return, staging loop, entry-flow validation, atomic
swap.  Manifest loading, connector construction and the `allow_stale`
failure wrapper sit outside this core. -/
def syncCore (metas : List RemoteFileMeta) (strictFp : Bool) (fetchPolicy : LC)
    (oldFp : Option LC) (activeExists : Bool) (oldMap : List (LC × SnapEntry))
    (cache0 : List LC) (readBytes : LC → List Nat) (entryFlow : LC) :
    Except LC SyncOutcome :=
  let enriched :=
    if strictFp then enrichStrict readBytes metas cache0
    else (metas, cache0, [])
  let metas' := enriched.1
  let cache1 := enriched.2.1
  let enrichReads := enriched.2.2
  let newFp := fingerprint metas'
  if !(fetchPolicy = lc "always") && oldFp = some newFp && activeExists then
    Except.ok { fingerprint := newFp, changed := false, fetchedFiles := [],
                reads := enrichReads, activeReplaced := false }
  else
    match fetchAll readBytes oldMap
        { cache := cache1, fetched := [], fileSha := [], reads := [], cacheWrites := [] }
        metas' with
    | Except.error e => Except.error e
    | Except.ok st =>
      if !(entryFlow = []) &&
          !((metas'.map (fun m => lstripSlash m.relPath)).contains entryFlow) then
        Except.error (lc "entry_flow not found in bundle: ")
      else
        Except.ok { fingerprint := newFp, changed := true, fetchedFiles := st.fetched,
                    reads := enrichReads ++ st.reads, activeReplaced := true }

/-! ## Run executor (`aetherflow/core/runner.py`)

The job loop of `run_flow` (runner.py:427-562) with its `depends_on` gate,
`when` gate, step loop, resume check, short-circuit and status recording.
Step implementations and the `when` evaluator are external collaborators
(the spec specifies them only at their interfaces); they enter as oracle
functions.  The state store (`state.py`) is a key→status map; observable
actions are also collected in an event trace so claims can state what was
and was not executed. -/

def kvGet [DecidableEq κ] (m : List (κ × α)) (k : κ) : Option α :=
  match m with
  | [] => Option.none
  | (k', v) :: rest => if k' = k then some v else kvGet rest k

def kvSet [DecidableEq κ] (m : List (κ × α)) (k : κ) (v : α) : List (κ × α) :=
  match m with
  | [] => [(k, v)]
  | (k', v') :: rest => if k' = k then (k', v) :: rest else (k', v') :: kvSet rest k v

def JOB_SUCCESS : LC := lc "SUCCESS"
def JOB_FAILED : LC := lc "FAILED"
def JOB_BLOCKED : LC := lc "BLOCKED"
def JOB_SKIPPED : LC := lc "SKIPPED"
def STEP_SUCCESS : LC := lc "SUCCESS"
def STEP_SKIPPED : LC := lc "SKIPPED"

/-- `StateStore` (state.py): `job_runs(job_id, run_id) → status` and
`step_runs(job_id, run_id, step_id) → status`, both INSERT OR REPLACE. -/
structure StoreState where
  jobRuns : List ((LC × LC) × LC)
  stepRuns : List ((LC × LC × LC) × LC)

def setJobStatus (st : StoreState) (jobId runId status : LC) : StoreState :=
  { st with jobRuns := kvSet st.jobRuns (jobId, runId) status }

def setStepStatus (st : StoreState) (jobId runId stepId status : LC) : StoreState :=
  { st with stepRuns := kvSet st.stepRuns (jobId, runId, stepId) status }

/-- `StateStore.get_step_status` (state.py:64). -/
def getStepStatus (st : StoreState) (jobId runId stepId : LC) : Option LC :=
  kvGet st.stepRuns (jobId, runId, stepId)

/-- `StepSpec` as the runner reads it. -/
structure StepSpec where
  id : LC
  type : LC
  inputs : PyVal
  outputs : PyVal
  onNoData : Option LC

/-- `JobSpec` as the runner reads it.  `when` expressions stay in their
source form `W`; the safe evaluator is an oracle parameter. -/
structure JobSpec (W : Type) where
  id : LC
  dependsOn : List LC
  when : Option W
  steps : List StepSpec

/-- What `inst.run()` produced: a plain mapping (treated as SUCCESS), a
`StepResult{status, output, reason}`, or a raised exception.  Also stands
in for failures of step lookup/instantiation. -/
inductive StepRun where
  | ret (out : PyVal)
  | res (status : LC) (output : Option PyVal) (reason : Option LC)
  | exc

/-- `StepResult.as_output` (steps/base.py:24): copy the output mapping and
`setdefault("reason", reason)` when the reason is truthy. -/
def stepResultAsOutput (output : Option PyVal) (reason : Option LC) : PyVal :=
  let kvs := match output with
    | some (.dict kvs) => kvs
    | _ => []
  match reason with
  | some r =>
    if r.isEmpty then .dict kvs
    else match dictGet kvs (lc "reason") with
      | some _ => .dict kvs
      | Option.none => .dict (kvs ++ [(lc "reason", .str r)])
  | Option.none => .dict kvs

/-- `resolve_step_templates` (resolution.py:114). -/
def resolveStepTemplates (obj : PyVal) (runtimeCtx : List (LC × PyVal)) :
    Except RErr PyVal :=
  walkAndRender obj runtimeCtx true
    (some [lc "env", lc "steps", lc "job", lc "run_id", lc "flow_id", lc "result", lc "jobs"])

/-- Observable actions of the runner. -/
inductive RunEvent where
  | stepRendered (jobId stepId : LC) (renderedInputs : PyVal)
  | stepRan (jobId stepId : LC)
  | stepResumeSkipped (jobId stepId : LC) (prev : LC)
  | stepShortCircuitSkipped (jobId stepId : LC)
  | jobBlocked (jobId : LC)
  | jobSkippedWhen (jobId : LC)

/-- The per-job mutable state of the step loop (runner.py:462-471). -/
structure JobLoopState where
  stepOutputs : List (LC × PyVal)
  jobOutputs : List (LC × PyVal)
  skipRest : Bool
  skipReason : PyVal
  store : StoreState
  events : List RunEvent

/-- The per-step runtime context (runner.py:486-494 and 514-522). -/
def stepRuntimeCtx (env : List (LC × LC)) (flowId runId jobId : LC)
    (jobCtx : List (LC × PyVal)) (st : JobLoopState) (result : PyVal) :
    List (LC × PyVal) :=
  [(lc "env", envDict env),
   (lc "steps", .dict st.stepOutputs),
   (lc "job", .dict [(lc "id", .str jobId), (lc "outputs", .dict st.jobOutputs)]),
   (lc "run_id", .str runId),
   (lc "flow_id", .str flowId),
   (lc "result", result),
   (lc "jobs", .dict jobCtx)]

/-- `dict.update` with the Python `rendered or {}` guard; a truthy
non-mapping argument raises `TypeError`. -/
def jobOutputsUpdate (jobOutputs : List (LC × PyVal)) (rendered : PyVal) :
    Except Unit (List (LC × PyVal)) :=
  match rendered with
  | .dict kvs => Except.ok (kvs.foldl (fun acc kv => dictSet acc kv.1 kv.2) jobOutputs)
  | v => if pyTruthy v then Except.error () else Except.ok jobOutputs

/-- The execute branch of one step iteration (runner.py:485-534): render
inputs, run, record status and outputs, promote declared outputs, arm the
short-circuit on a SKIPPED result with `on_no_data=skip_job`. -/
def runStep1Exec (stepImpl : LC → LC → PyVal → StepRun) (env : List (LC × LC))
    (flowId runId jobId : LC) (jobCtx : List (LC × PyVal))
    (st : JobLoopState) (step : StepSpec) : Except JobLoopState JobLoopState :=
  match resolveStepTemplates step.inputs (stepRuntimeCtx env flowId runId jobId jobCtx st (.dict [])) with
  | Except.error _ => Except.error st
  | Except.ok renderedInputs =>
    let st := { st with events := st.events ++ [.stepRendered jobId step.id renderedInputs] }
    match stepImpl step.type step.id renderedInputs with
    | StepRun.exc => Except.error st
    | rawOut =>
      let (stepStatus, out) :=
        match rawOut with
        | StepRun.res status output reason => (status, stepResultAsOutput output reason)
        | StepRun.ret o => (STEP_SUCCESS, if pyTruthy o then o else .dict [])
        | StepRun.exc => (STEP_SUCCESS, .dict [])
      let st := { st with
        stepOutputs := kvSet st.stepOutputs step.id out,
        store := setStepStatus st.store jobId runId step.id stepStatus,
        events := st.events ++ [.stepRan jobId step.id] }
      let afterOutputs : Except JobLoopState JobLoopState :=
        if pyTruthy step.outputs then
          match resolveStepTemplates step.outputs
              (stepRuntimeCtx env flowId runId jobId jobCtx st out) with
          | Except.error _ => Except.error st
          | Except.ok rendered =>
            match jobOutputsUpdate st.jobOutputs rendered with
            | Except.error _ => Except.error st
            | Except.ok jo => Except.ok { st with jobOutputs := jo }
        else Except.ok st
      match afterOutputs with
      | Except.error st' => Except.error st'
      | Except.ok st' =>
        if stepStatus = STEP_SKIPPED && step.onNoData = some (lc "skip_job") then
          let reasonVal := (dictGet (match out with | .dict kvs => kvs | _ => []) (lc "reason")).getD .none
          Except.ok { st' with
            skipRest := true,
            skipReason := if pyTruthy reasonVal then reasonVal
                          else .str (lc "step requested skip_job") }
        else Except.ok st'

/-- One iteration of the step loop (runner.py:473-534).  `Except.error`
carries the state at the point where an exception escaped (it is re-raised
after the job is marked FAILED).  The registry lookup `get_step` and the
constructor run inside the same protected region as `inst.run()`; their
failures are represented by the oracle answering `StepRun.exc`. -/
def runStep1 (stepImpl : LC → LC → PyVal → StepRun) (env : List (LC × LC))
    (flowId runId jobId : LC) (jobCtx : List (LC × PyVal))
    (st : JobLoopState) (step : StepSpec) : Except JobLoopState JobLoopState :=
  if st.skipRest then
    Except.ok { st with
      store := setStepStatus st.store jobId runId step.id STEP_SKIPPED,
      stepOutputs := kvSet st.stepOutputs step.id
        (.dict [(lc "skipped", .bool true), (lc "reason", st.skipReason)]),
      events := st.events ++ [.stepShortCircuitSkipped jobId step.id] }
  else
    match getStepStatus st.store jobId runId step.id with
    | some prev =>
      if prev = STEP_SUCCESS || prev = STEP_SKIPPED then
        Except.ok { st with events := st.events ++ [.stepResumeSkipped jobId step.id prev] }
      else runStep1Exec stepImpl env flowId runId jobId jobCtx st step
    | Option.none => runStep1Exec stepImpl env flowId runId jobId jobCtx st step

def runSteps (stepImpl : LC → LC → PyVal → StepRun) (env : List (LC × LC))
    (flowId runId jobId : LC) (jobCtx : List (LC × PyVal))
    (st : JobLoopState) : List StepSpec → Except JobLoopState JobLoopState
  | [] => Except.ok st
  | step :: rest =>
    match runStep1 stepImpl env flowId runId jobId jobCtx st step with
    | Except.error st' => Except.error st'
    | Except.ok st' => runSteps stepImpl env flowId runId jobId jobCtx st' rest

/-- The whole-run mutable state of the job loop (runner.py:416-424). -/
structure RunState where
  statuses : List (LC × LC)
  jobCtx : List (LC × PyVal)
  store : StoreState
  events : List RunEvent

/-- `all(statuses.get(dep) == JOB_SUCCESS for dep in job.depends_on)`
(runner.py:432). -/
def depsOk (rs : RunState) (deps : List LC) : Bool :=
  deps.all (fun dep => kvGet rs.statuses dep = some JOB_SUCCESS)

/-- Whether a job proceeded (the run continues) or an exception aborted
the run (re-raised after FAILED bookkeeping, runner.py:554-562). -/
inductive JobOutcome where
  | proceeded (rs : RunState)
  | aborted (rs : RunState)

/-- The part of the job body after the `depends_on` gate
(runner.py:440-562): `when` gate, RUNNING mark, step loop, final status,
exception handling.  `evalWhen` is the `_safe_eval_when` oracle: `none`
means the evaluation raised (runner.py:441-445, re-raised as `ValueError`
before any status is recorded for the job). -/
def runJobGated (evalWhen : W → List (LC × PyVal) → Option Bool)
    (stepImpl : LC → LC → PyVal → StepRun) (env : List (LC × LC))
    (flowId runId : LC) (rs : RunState) (job : JobSpec W) : JobOutcome :=
  let whenResult : Except Unit Bool :=
    match job.when with
    | some w =>
      match evalWhen w rs.jobCtx with
      | some b => Except.ok b
      | Option.none => Except.error ()
    | Option.none => Except.ok true
  match whenResult with
  | Except.error _ => JobOutcome.aborted rs
  | Except.ok cond =>
    if !cond then
      JobOutcome.proceeded { rs with
        statuses := kvSet rs.statuses job.id JOB_SKIPPED,
        jobCtx := kvSet rs.jobCtx job.id
          (.dict [(lc "status", .str JOB_SKIPPED), (lc "outputs", .dict []),
                  (lc "skip_reason", .str (lc "condition=false"))]),
        store := setJobStatus rs.store job.id runId JOB_SKIPPED,
        events := rs.events ++ [.jobSkippedWhen job.id] }
    else
      let store1 := setJobStatus rs.store job.id runId (lc "RUNNING")
      let st0 : JobLoopState :=
        { stepOutputs := [], jobOutputs := [], skipRest := false,
          skipReason := .none, store := store1, events := rs.events }
      match runSteps stepImpl env flowId runId job.id rs.jobCtx st0 job.steps with
      | Except.error stErr =>
        JobOutcome.aborted { rs with
          statuses := kvSet rs.statuses job.id JOB_FAILED,
          store := setJobStatus stErr.store job.id runId JOB_FAILED,
          events := stErr.events }
      | Except.ok stDone =>
        let allDone := job.steps.all (fun s =>
          match getStepStatus stDone.store job.id runId s.id with
          | some v => v = STEP_SUCCESS || v = STEP_SKIPPED
          | Option.none => false)
        if stDone.skipRest && allDone then
          JobOutcome.proceeded { rs with
            statuses := kvSet rs.statuses job.id JOB_SKIPPED,
            jobCtx := kvSet rs.jobCtx job.id
              (.dict [(lc "status", .str JOB_SKIPPED), (lc "outputs", .dict stDone.jobOutputs),
                      (lc "skip_reason", stDone.skipReason),
                      (lc "skip_trigger", .str (lc "step"))]),
            store := setJobStatus stDone.store job.id runId JOB_SKIPPED,
            events := stDone.events }
        else
          JobOutcome.proceeded { rs with
            statuses := kvSet rs.statuses job.id JOB_SUCCESS,
            jobCtx := kvSet rs.jobCtx job.id
              (.dict [(lc "status", .str JOB_SUCCESS), (lc "outputs", .dict stDone.jobOutputs)]),
            store := setJobStatus stDone.store job.id runId JOB_SUCCESS,
            events := stDone.events }

/-- One iteration of the job loop (runner.py:427-562): the `depends_on`
gate (431-438), then the gated body. -/
def runJob (evalWhen : W → List (LC × PyVal) → Option Bool)
    (stepImpl : LC → LC → PyVal → StepRun) (env : List (LC × LC))
    (flowId runId : LC) (rs : RunState) (job : JobSpec W) : JobOutcome :=
  if !job.dependsOn.isEmpty && !(depsOk rs job.dependsOn) then
    JobOutcome.proceeded { rs with
      statuses := kvSet rs.statuses job.id JOB_BLOCKED,
      jobCtx := kvSet rs.jobCtx job.id
        (.dict [(lc "status", .str JOB_BLOCKED), (lc "outputs", .dict [])]),
      store := setJobStatus rs.store job.id runId JOB_BLOCKED,
      events := rs.events ++ [.jobBlocked job.id] }
  else runJobGated evalWhen stepImpl env flowId runId rs job

/-- The job loop of `run_flow` over the declared jobs, honouring the
`--flow-job` filter (runner.py:428-429) and stopping when a job re-raises. -/
def runFlowJobs (evalWhen : W → List (LC × PyVal) → Option Bool)
    (stepImpl : LC → LC → PyVal → StepRun) (env : List (LC × LC))
    (flowId runId : LC) (flowJob : Option LC) (rs : RunState) :
    List (JobSpec W) → JobOutcome
  | [] => JobOutcome.proceeded rs
  | job :: rest =>
    if flowJob.isSome && flowJob ≠ some job.id then
      runFlowJobs evalWhen stepImpl env flowId runId flowJob rs rest
    else
      match runJob evalWhen stepImpl env flowId runId rs job with
      | JobOutcome.aborted rs' => JobOutcome.aborted rs'
      | JobOutcome.proceeded rs' =>
        runFlowJobs evalWhen stepImpl env flowId runId flowJob rs' rest

/-! ## Sandbox path resolution (`aetherflow/core/builtins/steps.py`)

Paths are modelled at the segment level: an absolute path is its list of
components below `/`.  The filesystem is a finite map from absolute paths
to nodes (directory, file, or symlink with an absolute target; relative
symlink targets do not occur in the claims).  `Path.resolve()` is POSIX
`realpath` with `strict=False`: symlinks are followed segment by segment,
`..` applies to the path resolved so far, and nonexistent tails are kept.
The `fuel` bounds symlink chains (`MAXSYMLINKS`-style); the claims use
well-founded filesystems where it is never exhausted. -/

structure AbsPath where
  segs : List LC
deriving DecidableEq

inductive FsNode where
  | dir
  | file
  | symlink (target : AbsPath)

abbrev Fs := List (AbsPath × FsNode)

def fsGet (fs : Fs) (p : AbsPath) : Option FsNode :=
  match fs with
  | [] => Option.none
  | (p', n) :: rest => if p' = p then some n else fsGet rest p

/-- Segment-wise `realpath`: `cur` is resolved so far, `rest` is pending. -/
def resolveSegs (fs : Fs) : Nat → List LC → List LC → List LC
  | _, cur, [] => cur
  | 0, cur, rest => cur ++ rest
  | fuel + 1, cur, seg :: rest =>
    if seg = lc "." || seg = [] then resolveSegs fs fuel cur rest
    else if seg = lc ".." then resolveSegs fs fuel cur.dropLast rest
    else
      match fsGet fs ⟨cur ++ [seg]⟩ with
      | some (.symlink t) => resolveSegs fs fuel (resolveSegs fs fuel [] t.segs) rest
      | _ => resolveSegs fs fuel (cur ++ [seg]) rest

/-- `Path.resolve()` on an absolute path. -/
def pathResolve (fs : Fs) (p : AbsPath) : AbsPath :=
  ⟨resolveSegs fs 256 [] p.segs⟩

/-- `Path.exists()`: follows symlinks. -/
def fsExists (fs : Fs) (p : AbsPath) : Bool :=
  (fsGet fs (pathResolve fs p)).isSome

/-- `Path.is_symlink()`: `lstat` — parents are resolved, the final
component is not. -/
def fsIsSymlink (fs : Fs) (p : AbsPath) : Bool :=
  match p.segs.getLast? with
  | Option.none => false
  | some last =>
    let parent := pathResolve fs ⟨p.segs.dropLast⟩
    match fsGet fs ⟨parent.segs ++ [last]⟩ with
    | some (.symlink _) => true
    | _ => false

/-- `cand.relative_to(root)` (purely lexical): the components of `cand`
below `root`, or `none` when `cand` is not under `root`. -/
def relativeTo (cand root : AbsPath) : Option (List LC) :=
  if root.segs.isPrefixOf cand.segs then some (cand.segs.drop root.segs.length)
  else Option.none

/-- The segment walk of `_reject_symlink_chain` (builtins/steps.py:54-64):
reject if any chain point both exists and is a symlink. -/
def chainHasSymlink (fs : Fs) (root : AbsPath) : List LC → Bool
  | [] => false
  | part :: rest =>
    let cur : AbsPath := ⟨root.segs ++ [part]⟩
    if fsExists fs cur && fsIsSymlink fs cur then true
    else chainHasSymlink fs ⟨cur.segs⟩ rest

/-- `_reject_symlink_chain(root, cand)` (builtins/steps.py:32): resolve the
root, require `cand` under it, then walk the segments. -/
def rejectSymlinkChain (fs : Fs) (root cand : AbsPath) : Except LC Unit :=
  let root' := pathResolve fs root
  match relativeTo cand root' with
  | Option.none => Except.error (lc "Path escapes artifacts_dir: ")
  | some rel =>
    if chainHasSymlink fs root' rel then
      Except.error (lc "Path contains symlink (sandbox blocked): ")
    else Except.ok ()

/-- ASCII `str.lower()`. -/
def pyLower (s : LC) : LC :=
  s.map (fun c => if 'A' ≤ c && c ≤ 'Z' then Char.ofNat (c.toNat + 32) else c)

def truthyEnvValues : List LC := [lc "1", lc "true", lc "yes", lc "y", lc "on"]

/-- `_is_enterprise` (builtins/steps.py:125) on a dict env. -/
def isEnterprise (env : List (LC × LC)) : Bool :=
  truthyEnvValues.contains
    (pyLower ((kvGet env (lc "AETHERFLOW_MODE_ENTERPRISE")).getD (lc "false")))

/-- `_is_sandbox` (builtins/steps.py:133) on a dict env: default on. -/
def isSandbox (env : List (LC × LC)) : Bool :=
  truthyEnvValues.contains
    (pyLower ((kvGet env (lc "AETHERFLOW_STRICT_SANDBOX")).getD (lc "true")))

/-- The run-context fields `_resolve_path` consults. -/
structure StepCtx where
  env : List (LC × LC)
  workRoot : Option AbsPath
  artifactsDir : AbsPath

/-- `_allowed_roots` (builtins/steps.py:67): the resolved work root (when
set) and the resolved artifacts root, de-duplicated, kept only if they
exist.  (The Python builds a set; membership below is order-independent.) -/
def allowedRoots (fs : Fs) (ctx : StepCtx) : List AbsPath :=
  let roots :=
    (match ctx.workRoot with
     | some wr => [pathResolve fs wr]
     | Option.none => []) ++ [pathResolve fs ctx.artifactsDir]
  (roots.foldl (fun acc r => if acc.contains r then acc else acc ++ [r]) []).filter
    (fun r => fsExists fs r)

/-- A user-supplied path: `Path(raw)` after parsing. -/
structure UserPath where
  absolute : Bool
  segs : List LC

/-- `_resolve_path(ctx, job_id, p)` (builtins/steps.py:84-122).  The job's
artifacts directory is `ctx.artifactsDir` (`ctx.artifacts_dir(job_id)`). -/
def resolvePath (fs : Fs) (ctx : StepCtx) (p : UserPath) : Except LC AbsPath :=
  let artifactsRoot := pathResolve fs ctx.artifactsDir
  let cand :=
    if p.absolute then pathResolve fs ⟨p.segs⟩
    else pathResolve fs ⟨artifactsRoot.segs ++ p.segs⟩
  if !(isSandbox ctx.env) then Except.ok cand
  else if isEnterprise ctx.env then
    match relativeTo cand artifactsRoot with
    | Option.none => Except.error (lc "Path escapes job artifacts dir in enterprise mode: ")
    | some _ =>
      match rejectSymlinkChain fs artifactsRoot cand with
      | Except.error e => Except.error e
      | Except.ok _ => Except.ok cand
  else
    if (allowedRoots fs ctx).any (fun root =>
        match relativeTo cand root with
        | some _ =>
          match rejectSymlinkChain fs root cand with
          | Except.ok _ => true
          | Except.error _ => false
        | Option.none => false) then
      Except.ok cand
    else Except.error (lc "Path not under allowed roots: ")

/-! ## Lemmas about the standalone-token parser -/

/-- The shape produced by `parseIdent` and by each `\.IDENT` repetition. -/
def identOk (t : LC) : Bool :=
  match t with
  | [] => false
  | c :: rest => reIdentStart c && rest.all reIdentChar

theorem parseIdent_identOk {r idt rest : LC} (h : parseIdent r = some (idt, rest)) :
    identOk idt = true := by
  cases r with
  | nil => simp [parseIdent] at h
  | cons c t =>
    rw [parseIdent] at h
    by_cases hs : reIdentStart c = true
    · simp only [hs, if_true, Option.some.injEq, Prod.mk.injEq] at h
      obtain ⟨h1, _⟩ := h
      subst h1
      simp [identOk, hs, List.all_takeWhile]
    · simp [hs] at h

theorem reIdentStart_to_ident {c : Char} (h : reIdentStart c = true) :
    (pyIsAlpha c || c = '_') = true := by
  rw [reIdentStart] at h
  rw [pyIsAlpha]
  rcases Bool.or_eq_true_iff.mp h with h' | h'
  · rcases Bool.or_eq_true_iff.mp h' with h'' | h''
    · simp [pyIsAlpha] at h'' ⊢
      exact Or.inl (Or.inl h'')
    · simp [pyIsAlpha] at h'' ⊢
      exact Or.inl (Or.inr h'')
  · simp_all

theorem reIdentChar_to_ident {c : Char} (h : reIdentChar c = true) :
    (pyIsAlnum c || c = '_') = true := by
  rw [reIdentChar] at h
  rcases Bool.or_eq_true_iff.mp h with h' | h'
  · have := reIdentStart_to_ident h'
    rcases Bool.or_eq_true_iff.mp this with h'' | h''
    · simp [pyIsAlnum, h'']
    · simp [h'']
  · simp [pyIsAlnum, pyIsDigit, h']

theorem identOk_isIdentifier {t : LC} (h : identOk t = true) :
    isIdentifier t = true := by
  cases t with
  | nil => simp [identOk] at h
  | cons c rest =>
    rw [identOk] at h
    obtain ⟨h1, h2⟩ := Bool.and_eq_true_iff.mp h
    rw [isIdentifier]
    refine Bool.and_eq_true_iff.mpr ⟨reIdentStart_to_ident h1, ?_⟩
    rw [List.all_eq_true] at h2 ⊢
    intro x hx
    exact reIdentChar_to_ident (h2 x hx)

theorem reIdentStart_ne_dot {c : Char} (h : reIdentStart c = true) : ¬ c = '.' := by
  intro hc
  subst hc
  simp [reIdentStart] at h

theorem reIdentChar_ne_dot {c : Char} (h : reIdentChar c = true) : ¬ c = '.' := by
  intro hc
  subst hc
  simp [reIdentChar, reIdentStart] at h

theorem identOk_no_dot {t : LC} (h : identOk t = true) : ∀ c ∈ t, ¬ c = '.' := by
  cases t with
  | nil => simp
  | cons c rest =>
    rw [identOk] at h
    obtain ⟨h1, h2⟩ := Bool.and_eq_true_iff.mp h
    intro x hx
    rcases List.mem_cons.mp hx with h' | h'
    · subst h'; exact reIdentStart_ne_dot h1
    · exact reIdentChar_ne_dot (List.all_eq_true.mp h2 x h')

theorem splitOn_no_sep {a : LC} (h : ∀ c ∈ a, ¬ c = '.') :
    List.splitOn '.' a = [a] := by
  induction a with
  | nil => rfl
  | cons c t ih =>
    have hc : ¬ c = '.' := h c (List.mem_cons_self ..)
    have ht := ih (fun x hx => h x (List.mem_cons_of_mem c hx))
    rw [List.splitOn, List.splitOnP_cons]
    have : (c == '.') = false := by simp [hc]
    rw [this]
    rw [List.splitOn] at ht
    simp [ht, List.modifyHead]

theorem modifyHead_append {l1 l2 : List LC} {f : LC → LC} (h : l1 ≠ []) :
    (l1 ++ l2).modifyHead f = l1.modifyHead f ++ l2 := by
  cases l1 with
  | nil => exact absurd rfl h
  | cons a t => simp [List.modifyHead]

theorem splitOn_append_sep (x y : LC) :
    List.splitOn '.' (x ++ '.' :: y) = List.splitOn '.' x ++ List.splitOn '.' y := by
  induction x with
  | nil =>
    rw [List.nil_append, List.splitOn, List.splitOnP_cons]
    simp [List.splitOn]
  | cons c t ih =>
    rw [List.cons_append, List.splitOn, List.splitOnP_cons]
    by_cases hc : (c == '.') = true
    · rw [hc, if_pos rfl]
      rw [List.splitOn] at ih
      rw [ih]
      have hct : List.splitOn '.' (c :: t) = [] :: List.splitOn '.' t := by
        rw [List.splitOn, List.splitOnP_cons, hc, if_pos rfl]
        rfl
      rw [hct]
      rfl
    · have hcf : (c == '.') = false := Bool.eq_false_iff.mpr hc
      rw [hcf, if_neg (by simp)]
      rw [List.splitOn] at ih
      rw [ih]
      have hne : List.splitOn '.' t ≠ [] := List.splitOnP_ne_nil _ t
      rw [modifyHead_append hne]
      have hct : List.splitOn '.' (c :: t) = (List.splitOn '.' t).modifyHead (List.cons c) := by
        rw [List.splitOn, List.splitOnP_cons, hcf, if_neg (by simp)]
        rfl
      rw [hct]

theorem isValidPath_of_identOk {t : LC} (h : identOk t = true) :
    isValidPath t = true := by
  rw [isValidPath, splitOn_no_sep (identOk_no_dot h)]
  simp [identOk_isIdentifier h]

theorem isValidPath_append {a b : LC} (ha : isValidPath a = true)
    (hb : identOk b = true) : isValidPath (a ++ '.' :: b) = true := by
  rw [isValidPath, splitOn_append_sep, splitOn_no_sep (identOk_no_dot hb)]
  rw [List.all_append]
  rw [isValidPath] at ha
  simp [ha, identOk_isIdentifier hb]

theorem parsePathLoopF_valid :
    ∀ (f : Nat) (acc r : LC), isValidPath acc = true →
      isValidPath (parsePathLoopF f acc r).1 = true := by
  intro f
  induction f with
  | zero => intro acc r ha; exact ha
  | succ f' ih =>
    intro acc r ha
    cases r with
    | nil => exact ha
    | cons c0 r1 =>
      cases r1 with
      | nil => exact ha
      | cons c t =>
        rw [parsePathLoopF]
        by_cases hc : (c0 = '.' && reIdentStart c) = true
        · rw [if_pos hc]
          obtain ⟨_, hstart⟩ := Bool.and_eq_true_iff.mp hc
          apply ih
          apply isValidPath_append ha
          simp [identOk, hstart, List.all_takeWhile]
        · rw [if_neg hc]
          exact ha

theorem parseCloseEnd_some {path r : LC} {d pd : Option LC} {p : LC}
    (h : parseCloseEnd path d r = some (p, pd)) : p = path ∧ pd = d := by
  cases r with
  | nil => simp [parseCloseEnd] at h
  | cons c1 r1 =>
    cases r1 with
    | nil => simp [parseCloseEnd] at h
    | cons c2 r5 =>
      rw [parseCloseEnd] at h
      by_cases hc : (c1 = '}' && c2 = '}' && dollarEnd r5) = true
      · rw [if_pos hc] at h
        obtain ⟨h1, h2⟩ := Prod.mk.injEq .. ▸ Option.some.inj h
        exact ⟨h1.symm, h2.symm⟩
      · rw [if_neg hc] at h; cases h

theorem parseStandaloneEnd_some {path r3 : LC} {p : LC} {pd : Option LC}
    (h : parseStandaloneEnd path r3 = some (p, pd)) : p = path := by
  cases r3 with
  | nil =>
    rw [parseStandaloneEnd] at h
    exact (parseCloseEnd_some h).1
  | cons c r4 =>
    rw [parseStandaloneEnd] at h
    by_cases hc : c = ':'
    · rw [if_pos (by simp [hc])] at h
      exact (parseCloseEnd_some h).1
    · rw [if_neg (by simp [hc])] at h
      exact (parseCloseEnd_some h).1

/-- Inversion of a standalone-token match: the string starts with `{{` and
the captured path comes from the ident/path parser. -/
theorem parseStandalone_inv {s p : LC} {d : Option LC}
    (h : parseStandalone s = some (p, d)) :
    ∃ r0 id1 r2, s = '{' :: '{' :: r0 ∧
      parseIdent (r0.dropWhile reWs) = some (id1, r2) ∧
      (parsePathLoop id1 r2).1 = p := by
  cases s with
  | nil => simp [parseStandalone] at h
  | cons c1 s1 =>
    cases s1 with
    | nil => simp [parseStandalone] at h
    | cons c2 r0 =>
      rw [parseStandalone] at h
      by_cases hc : (c1 = '{' && c2 = '{') = true
      · rw [if_pos hc] at h
        obtain ⟨h1, h2⟩ := Bool.and_eq_true_iff.mp hc
        rw [decide_eq_true_eq] at h1 h2
        subst h1; subst h2
        cases hi : parseIdent (r0.dropWhile reWs) with
        | none => rw [hi] at h; cases h
        | some pr =>
          rw [hi] at h
          obtain ⟨id1, r2⟩ := pr
          simp only at h
          exact ⟨r0, id1, r2, rfl, hi, (parseStandaloneEnd_some h).symm⟩
      · rw [if_neg hc] at h; cases h

/-- The captured path of a standalone token is a valid dotted path
(`_is_valid_path` accepts it). -/
theorem parseStandalone_valid {s p : LC} {d : Option LC}
    (h : parseStandalone s = some (p, d)) : isValidPath p = true := by
  obtain ⟨r0, id1, r2, _, hi, hp⟩ := parseStandalone_inv h
  rw [← hp]
  exact parsePathLoopF_valid _ _ _ (isValidPath_of_identOk (parseIdent_identOk hi))

/-- A standalone match implies the string contains `{{` (so the fast path
of `_render_string_or_typed` is not taken). -/
theorem parseStandalone_openPat {s p : LC} {d : Option LC}
    (h : parseStandalone s = some (p, d)) : containsSub s openPat = true := by
  obtain ⟨r0, _, _, hs, _, _⟩ := parseStandalone_inv h
  subst hs
  rw [containsSub]
  have : openPat.isPrefixOf ('{' :: '{' :: r0) = true := by
    rw [List.isPrefixOf_iff_prefix]
    exact ⟨r0, rfl⟩
  simp [this]

/-- Under a standalone match with no forbidden syntax, the renderer reaches
the typed branch (resolution.py:414-437). -/
theorem renderStringOrTyped_standalone {s p : LC} {d : Option LC}
    {m : List (LC × PyVal)} {strict : Bool} {roots : Option (List LC)}
    (hf : containsForbidden s = false)
    (hp : parseStandalone s = some (p, d))
    (hr : rootAllowed roots p = true) :
    renderStringOrTyped s m strict roots =
      match lookupPath m p with
      | some r =>
        if pyEmptyStr r then
          match d with
          | some dd => Except.ok (.str dd)
          | Option.none =>
            if strict then Except.error (.missingKey p) else Except.ok (.str [])
        else Except.ok r
      | Option.none =>
        match d with
        | some dd => Except.ok (.str dd)
        | Option.none =>
          if strict then Except.error (.missingKey p) else Except.ok (.str []) := by
  have hopen := parseStandalone_openPat hp
  rw [renderStringOrTyped]
  simp only [hf, Bool.false_eq_true, if_false, hopen, Bool.not_true, Bool.false_and, hp,
    parseStandalone_valid hp, hr]
  cases d <;> cases lookupPath m p <;> rfl

/-- When the standalone regex does not match, any successful render of
`_render_string_or_typed` is a string (fast path or inline fallback). -/
theorem renderStringOrTyped_inline_str {s : LC} {m : List (LC × PyVal)}
    {strict : Bool} {roots : Option (List LC)} {r : PyVal}
    (hp : parseStandalone s = Option.none)
    (h : renderStringOrTyped s m strict roots = Except.ok r) :
    ∃ t, r = PyVal.str t := by
  rw [renderStringOrTyped] at h
  by_cases hf : containsForbidden s = true
  · rw [hf] at h; simp at h
  · rw [Bool.not_eq_true] at hf
    rw [hf] at h
    simp only [Bool.false_eq_true, if_false] at h
    by_cases hfast : (!containsSub s openPat && !containsSub s closePat) = true
    · rw [hfast] at h
      simp only [if_true, Except.ok.injEq] at h
      exact ⟨s, h.symm⟩
    · rw [Bool.not_eq_true] at hfast
      rw [hfast] at h
      simp only [Bool.false_eq_true, if_false, hp] at h
      cases hr : renderString s m strict roots with
      | error e => rw [hr] at h; cases h
      | ok t =>
        rw [hr] at h
        simp only [Except.ok.injEq] at h
        exact ⟨t, h.symm⟩

/-! ## Claims -/

/-- **C1** — counterexample to the claim as stated: the spec allows
surrounding whitespace around a standalone token while preserving the
native type, but `_render_string_or_typed` applies `_STANDALONE_TOKEN_RE`
without stripping, so `" {{X}}"` with `X ↦ 42` renders to the *string*
`" 42"`, not the integer `42`. -/
theorem C1_counterexample :
    renderStringOrTyped (lc " {{X}}") [(lc "X", .int 42)] true Option.none
      = Except.ok (.str (lc " 42")) ∧
    renderStringOrTyped (lc " {{X}}") [(lc "X", .int 42)] true Option.none
      ≠ Except.ok (.int 42) := by
  refine ⟨by rfl, ?_⟩
  intro h
  rw [show renderStringOrTyped (lc " {{X}}") [(lc "X", PyVal.int 42)] true Option.none
      = Except.ok (.str (lc " 42")) from rfl] at h
  exact PyVal.noConfusion (Except.ok.inj h)

/-- **C1** (amended).  A string that is exactly one standalone token with
no surrounding characters (`_STANDALONE_TOKEN_RE` matches the unstripped
string; whitespace inside the braces and a single trailing newline are
tolerated) renders to the looked-up value preserving its native type when
the value is found and non-empty and no forbidden pattern is present; any
string the regex does not match — including one with surrounding
whitespace — renders to a string when it renders at all.  In particular,
with `X ↦ 42`, `"{{X}}"` renders to the integer `42` and
`"prefix {{X}}"` to the string `"prefix 42"`. -/
theorem C1_typed_passthrough :
    (∀ (m : List (LC × PyVal)) (s p : LC) (d : Option LC) (strict : Bool)
       (roots : Option (List LC)) (v : PyVal),
       containsForbidden s = false →
       parseStandalone s = some (p, d) →
       rootAllowed roots p = true →
       lookupPath m p = some v →
       pyEmptyStr v = false →
       renderStringOrTyped s m strict roots = Except.ok v) ∧
    (∀ (m : List (LC × PyVal)) (s : LC) (strict : Bool) (roots : Option (List LC))
       (r : PyVal),
       parseStandalone s = Option.none →
       renderStringOrTyped s m strict roots = Except.ok r →
       ∃ t, r = PyVal.str t) ∧
    renderStringOrTyped (lc "{{X}}") [(lc "X", .int 42)] true Option.none
      = Except.ok (.int 42) ∧
    renderStringOrTyped (lc "prefix {{X}}") [(lc "X", .int 42)] true Option.none
      = Except.ok (.str (lc "prefix 42")) := by
  refine ⟨?_, ?_, by rfl, by rfl⟩
  · intro m s p d strict roots v hf hp hr hl he
    rw [renderStringOrTyped_standalone hf hp hr]
    rw [hl]
    simp [he]
  · intro m s strict roots r hp h
    exact renderStringOrTyped_inline_str hp h

theorem C1_typed_passthrough_witness :
    renderStringOrTyped (lc "{{job.id:j0}}")
        [(lc "job", .dict [(lc "id", .str (lc "batch"))])] true Option.none
      = Except.ok (.str (lc "batch")) :=
  C1_typed_passthrough.1 _ _ _ _ _ _ _ (by rfl) (by rfl) (by rfl) (by rfl) (by rfl)

/-- **C10** — confirmed.  For a standalone token with a default,
`{{PATH:DEFAULT}}`, whose path is absent from the mapping or resolves to
the empty string, `_render_string_or_typed` returns the DEFAULT as a plain
string exactly as captured after the colon (possibly empty, spacing
preserved, never re-rendered and never typed); the typed passthrough
applies only to found, non-empty values (per C1).  The extra conjuncts pin
the captured default of `"{{X: d w }}"` and the empty default of
`"{{X:}}"`. -/
theorem C10_default_on_missing :
    (∀ (m : List (LC × PyVal)) (s p dd : LC) (strict : Bool)
       (roots : Option (List LC)),
       containsForbidden s = false →
       parseStandalone s = some (p, some dd) →
       rootAllowed roots p = true →
       (lookupPath m p = Option.none ∨
         ∃ v, lookupPath m p = some v ∧ pyEmptyStr v = true) →
       renderStringOrTyped s m strict roots = Except.ok (.str dd)) ∧
    parseStandalone (lc "{{X: d w }}") = some (lc "X", some (lc " d w ")) ∧
    parseStandalone (lc "{{X:}}") = some (lc "X", some []) := by
  refine ⟨?_, by rfl, by rfl⟩
  intro m s p dd strict roots hf hp hr hmiss
  rw [renderStringOrTyped_standalone hf hp hr]
  rcases hmiss with hnone | ⟨v, hv, he⟩
  · rw [hnone]
  · rw [hv]
    simp [he]

theorem C10_default_on_missing_witness :
    renderStringOrTyped (lc "{{env.K: fallback }}") [(lc "env", .dict [])] true
        (some [lc "env"])
      = Except.ok (.str (lc " fallback ")) :=
  C10_default_on_missing.1 _ _ _ _ _ _ (by rfl) (by rfl) (by rfl) (Or.inl (by rfl))

/-! ### C3/C4 helpers: the decode concatenation rule -/

/-- Whether one runtime decode request `(section, path)` violates the raw
concatenation rule (resolution.py:170-175). -/
def decodeRawViolation (rawConfig rawOptions : PyVal) (sp : LC × LC) : Bool :=
  let rawRoot := if sp.1 = lc "config" then rawConfig else rawOptions
  match getByPath rawRoot sp.2 with
  | .str s => (containsSub s openPat || containsSub s closePat) && !(isStandaloneToken s)
  | _ => false

theorem decodeConcatCheck_cons (rawConfig rawOptions : PyVal) (hd : LC × LC)
    (tl : List (LC × LC)) :
    decodeConcatCheck rawConfig rawOptions (hd :: tl) =
      if decodeRawViolation rawConfig rawOptions hd = true then
        Except.error (.resolver (.syn (lc "raw decode concatenation")))
      else decodeConcatCheck rawConfig rawOptions tl := by
  obtain ⟨s1, p1⟩ := hd
  rw [decodeConcatCheck, decodeRawViolation]
  simp only
  cases hval : getByPath (if s1 = lc "config" then rawConfig else rawOptions) p1 with
  | str s =>
    by_cases hbr : (containsSub s openPat || containsSub s closePat) = true
    · by_cases hst : (!isStandaloneToken s) = true
      · simp [hbr, hst]
      · simp only [Bool.not_eq_true] at hst
        simp [hbr, hst]
    · simp only [Bool.not_eq_true] at hbr
      simp [hbr]
  | int n => simp
  | bool b => simp
  | none => simp
  | list xs => simp
  | dict kvs => simp

theorem decodeConcatCheck_err {rawConfig rawOptions : PyVal} :
    ∀ {reqs : List (LC × LC)},
      (∃ sp ∈ reqs, decodeRawViolation rawConfig rawOptions sp = true) →
      decodeConcatCheck rawConfig rawOptions reqs =
        Except.error (.resolver (.syn (lc "raw decode concatenation"))) := by
  intro reqs
  induction reqs with
  | nil => rintro ⟨sp, hsp, _⟩; cases hsp
  | cons hd tl ih =>
    rintro ⟨sp, hsp, hviol⟩
    rw [decodeConcatCheck_cons]
    rcases List.mem_cons.mp hsp with heq | hmem
    · subst heq
      rw [hviol]
      simp
    · by_cases hhd : decodeRawViolation rawConfig rawOptions hd = true
      · simp [hhd]
      · simp only [Bool.not_eq_true] at hhd
        simp only [hhd, Bool.false_eq_true, if_false]
        exact ih ⟨sp, hmem, hviol⟩

theorem decodeConcatCheck_ok {rawConfig rawOptions : PyVal} :
    ∀ {reqs : List (LC × LC)},
      (∀ sp ∈ reqs, decodeRawViolation rawConfig rawOptions sp = false) →
      decodeConcatCheck rawConfig rawOptions reqs = Except.ok () := by
  intro reqs
  induction reqs with
  | nil => intro _; rfl
  | cons hd tl ih =>
    intro h
    rw [decodeConcatCheck_cons]
    rw [h hd (List.mem_cons_self ..)]
    simp only [Bool.false_eq_true, if_false]
    exact ih (fun sp hsp => h sp (List.mem_cons_of_mem _ hsp))

/-- Membership form of the validation decode-concat scan: every violating
request produces its issue. -/
theorem scanResourceDecodeConcat_mem {rname : LC} {config options decodeSpec : PyVal}
    {sp : LC × LC}
    (hmem : sp ∈ valCollectDecodeRequests decodeSpec)
    (hviol : valDecodeViolation (pyOrDict config) (pyOrDict options) sp = true) :
    decodeConcatIssue rname sp ∈ scanResourceDecodeConcat rname config options decodeSpec := by
  rw [scanResourceDecodeConcat]
  have hne : ¬ valCollectDecodeRequests decodeSpec = [] := by
    intro h
    rw [h] at hmem
    cases hmem
  simp only [hne, if_false]
  revert hmem
  generalize valCollectDecodeRequests decodeSpec = reqs
  intro hmem
  induction reqs with
  | nil => cases hmem
  | cons hd tl ih =>
    rw [List.foldr_cons]
    rcases List.mem_cons.mp hmem with heq | hmem'
    · subst heq
      rw [hviol]
      simp
    · by_cases hhd : valDecodeViolation (pyOrDict config) (pyOrDict options) hd = true
      · rw [hhd]
        simp only [if_true]
        exact List.mem_cons_of_mem _ (ih hmem')
      · simp only [Bool.not_eq_true] at hhd
        rw [hhd]
        simp only [Bool.false_eq_true, if_false]
        exact ih hmem'

/-- Sample resource with a concatenated decode target (the spec's
`config.headers.Authorization: "Bearer {{env.TOKEN}}"` example). -/
def bearerResource : List (LC × PyVal) :=
  [(lc "kind", .str (lc "http")), (lc "driver", .str (lc "requests")),
   (lc "config", .dict [(lc "headers",
      .dict [(lc "Authorization", .str (lc "Bearer {{env.TOKEN}}"))])]),
   (lc "options", .dict []),
   (lc "decode", .dict [(lc "config",
      .dict [(lc "headers", .dict [(lc "Authorization", .bool true)])])])]

/-- Sample resource whose decode target is a standalone token. -/
def tokenResource : List (LC × PyVal) :=
  [(lc "kind", .str (lc "http")), (lc "driver", .str (lc "requests")),
   (lc "config", .dict [(lc "token", .str (lc "{{env.TOKEN}}"))]),
   (lc "options", .dict []),
   (lc "decode", .dict [(lc "config", .dict [(lc "token", .bool true)])])]

/-- `tokenResource` after rendering against `TOKEN=abc` and decoding with
hook `f`. -/
def tokenResourceDecoded (f : LC → LC) : List (LC × PyVal) :=
  [(lc "kind", .str (lc "http")), (lc "driver", .str (lc "requests")),
   (lc "config", .dict [(lc "token", .str (f (lc "abc")))]),
   (lc "options", .dict []),
   (lc "decode", .dict [(lc "config", .dict [(lc "token", .bool true)])])]

/-- **C3** — counterexample to the claim as stated: for the raw value
`"Bearer {{env.T}}"` the validation pipeline records its decode-concat
issue with the message `"Decode target must be a standalone template token
like '{{TOKEN}}' (no prefix/suffix)."`, which does NOT start with the fixed
template-syntax message — so validation and runtime do not fail "each with
the fixed template-syntax message". -/
theorem C3_counterexample :
    (scanResourceDecodeConcat (lc "r1")
        (.dict [(lc "headers", .dict [(lc "Authorization", .str (lc "Bearer {{env.T}}"))])])
        (.dict [])
        (.dict [(lc "config", .dict [(lc "headers", .dict [(lc "Authorization", .bool true)])])])).map
        (fun i => i.msg)
      = [decodeConcatMsg] ∧
    unsupportedMsg.isPrefixOf decodeConcatMsg = false :=
  ⟨by rfl, by rfl⟩

/-- **C3** (amended).  For every resource decode target whose raw
pre-render value is a string containing `{{`/`}}` and is not a standalone
token: (1) runtime `resolve_resource` — provided a secrets module with
callable `expand_env` and `decode` is configured and the template
rendering of `config`/`options` succeeds — raises the `ResolverSyntaxError`
carrying the fixed template-syntax message; (2) the validation scan records
a `template:syntax` issue at `resources.<name>.<section>.<path>` with its
own decode-concat message (not the fixed message); and (3) a raw value
that is exactly one standalone token such as `"{{env.TOKEN}}"` renders and
is passed through the decode hook `f`. -/
theorem C3_decode_standalone :
    (∀ (rd : List (LC × PyVal)) (env osEnv : List (LC × LC))
       (expand : List (LC × LC) → List (LC × LC)) (decFn : LC → LC)
       (r1 r2 : List (LC × PyVal)) (reqs : List (LC × LC)),
       renderResourceSection (expand env) rd (lc "config") = Except.ok r1 →
       renderResourceSection (expand env) r1 (lc "options") = Except.ok r2 →
       collectDecodeRequests ((dictGet r2 (lc "decode")).getD .none) = Except.ok reqs →
       ¬ reqs = [] →
       (∃ sp ∈ reqs,
         decodeRawViolation ((dictGet rd (lc "config")).getD .none)
           ((dictGet rd (lc "options")).getD .none) sp = true) →
       resolveResource rd (some env) osEnv (some ⟨some expand, some decFn⟩)
         = Except.error (.resolver (.syn (lc "raw decode concatenation")))) ∧
    (∀ (rname : LC) (config options decodeSpec : PyVal) (sp : LC × LC),
       sp ∈ valCollectDecodeRequests decodeSpec →
       valDecodeViolation (pyOrDict config) (pyOrDict options) sp = true →
       decodeConcatIssue rname sp ∈
         scanResourceDecodeConcat rname config options decodeSpec) ∧
    (∀ f : LC → LC,
       resolveResource tokenResource (some [(lc "TOKEN", lc "abc")]) []
           (some ⟨some id, some f⟩)
         = Except.ok (tokenResourceDecoded f, [])) := by
  refine ⟨?_, ?_, ?_⟩
  · intro rd env osEnv expand decFn r1 r2 reqs hc ho hcoll hne hex
    show resolveResourceBody rd (expand env) (some decFn) = _
    rw [resolveResourceBody]
    simp only [hc, ho, hcoll, hne, if_false]
    rw [decodeConcatCheck_err hex]
  · intro rname config options decodeSpec sp hmem hviol
    exact scanResourceDecodeConcat_mem hmem hviol
  · intro f
    rfl

theorem C3_decode_standalone_witness :
    resolveResource bearerResource (some [(lc "TOKEN", lc "abc")]) []
        (some ⟨some id, some id⟩)
      = Except.error (.resolver (.syn (lc "raw decode concatenation"))) :=
  C3_decode_standalone.1 bearerResource [(lc "TOKEN", lc "abc")] [] id id
    [(lc "kind", .str (lc "http")), (lc "driver", .str (lc "requests")),
     (lc "config", .dict [(lc "headers",
        .dict [(lc "Authorization", .str (lc "Bearer abc"))])]),
     (lc "options", .dict []),
     (lc "decode", .dict [(lc "config",
        .dict [(lc "headers", .dict [(lc "Authorization", .bool true)])])])]
    [(lc "kind", .str (lc "http")), (lc "driver", .str (lc "requests")),
     (lc "config", .dict [(lc "headers",
        .dict [(lc "Authorization", .str (lc "Bearer abc"))])]),
     (lc "options", .dict []),
     (lc "decode", .dict [(lc "config",
        .dict [(lc "headers", .dict [(lc "Authorization", .bool true)])])])]
    [(lc "config", lc "headers.Authorization")]
    (by rfl) (by rfl) (by rfl) (by simp)
    ⟨(lc "config", lc "headers.Authorization"), by simp, by rfl⟩

/-- **C4** — counterexample to the claim as stated: with decode targets
present and a configured secrets module that lacks a callable `decode`
(`expand_env` alone), `resolve_resource` raises `RuntimeError` instead of
leaving the rendered values unchanged with a warning. -/
theorem C4_counterexample :
    resolveResource tokenResource (some [(lc "TOKEN", lc "abc")]) []
        (some ⟨some id, Option.none⟩)
      = Except.error (.runtime
          (lc "set_envs_module must define callable expand_env and decode")) :=
  by rfl

/-- **C4** (amended).  (1) The secrets loader enforces the module contract:
`_enforce_set_envs_contract` accepts exactly the modules with no public
callable other than `decode`/`expand_env`; `_load_from_module` then
requires callable `decode` and treats `expand_env` as optional.  (2) When
NO secrets module is configured at all and decode targets exist,
`resolve_resource` returns the rendered resource unchanged together with a
non-fatal warning.  (3) But when a module IS configured and lacks callable
`decode` or callable `expand_env`, `resolve_resource` raises
`RuntimeError` — it does not warn. -/
theorem C4_secrets_contract :
    (∀ m : PyModule, enforceSetEnvsContract m = Except.ok () ↔ publicCallables m = []) ∧
    (∀ m : PyModule, publicCallables m = [] → moduleCallable m (lc "decode") = true →
       loadFromModule m = Except.ok ⟨moduleCallable m (lc "expand_env")⟩) ∧
    (∀ m : PyModule, publicCallables m = [] → moduleCallable m (lc "decode") = false →
       loadFromModule m = Except.error
         [lc "Secrets module must define callable decode(value: str) -> str"]) ∧
    (∀ (rd : List (LC × PyVal)) (env osEnv : List (LC × LC))
       (r1 r2 : List (LC × PyVal)) (reqs : List (LC × LC)),
       renderResourceSection env rd (lc "config") = Except.ok r1 →
       renderResourceSection env r1 (lc "options") = Except.ok r2 →
       collectDecodeRequests ((dictGet r2 (lc "decode")).getD .none) = Except.ok reqs →
       ¬ reqs = [] →
       resolveResource rd (some env) osEnv Option.none
         = Except.ok (r2,
             [lc "decode requested but set_envs.decode missing; leaving value as-is"])) ∧
    (∀ (rd : List (LC × PyVal)) (env : Option (List (LC × LC))) (osEnv : List (LC × LC))
       (se : SetEnvs), se.expandEnv = Option.none ∨ se.decode = Option.none →
       resolveResource rd env osEnv (some se)
         = Except.error (.runtime
             (lc "set_envs_module must define callable expand_env and decode"))) := by
  refine ⟨?_, ?_, ?_, ?_, ?_⟩
  · intro m
    rw [enforceSetEnvsContract]
    constructor
    · intro h
      by_cases hpc : publicCallables m = []
      · exact hpc
      · rw [if_neg hpc] at h
        cases h
    · intro h
      rw [if_pos h]
  · intro m hpc hd
    rw [loadFromModule, enforceSetEnvsContract, if_pos hpc]
    simp only [hd, if_true]
  · intro m hpc hd
    rw [loadFromModule, enforceSetEnvsContract, if_pos hpc]
    simp only [hd, Bool.false_eq_true, if_false]
  · intro rd env osEnv r1 r2 reqs hc ho hcoll hne
    show resolveResourceBody rd env Option.none = _
    rw [resolveResourceBody]
    simp only [hc, ho, hcoll, hne, if_false]
  · intro rd env osEnv se h
    obtain ⟨e, d⟩ := se
    rcases h with h | h
    · simp only at h
      subst h
      cases env <;> cases d <;> rfl
    · simp only at h
      subst h
      cases env <;> cases e <;> rfl

theorem C4_secrets_contract_witness :
    loadFromModule [⟨lc "decode", true⟩, ⟨lc "_helper", true⟩, ⟨lc "VERSION", false⟩]
      = Except.ok ⟨false⟩ :=
  C4_secrets_contract.2.1 _ (by rfl) (by rfl)


/-- C5: for a job with a non-empty `depends_on` list, the gate at
runner.py:431-438 is decisive.  (a) If some dependency did not end with
SUCCESS, the job is recorded with status BLOCKED — the same record in
`statuses`, `jobs` context and the store — the only event is `jobBlocked`,
and the store's step-run table is untouched (no step statuses are
recorded for the job); BLOCKED is not FAILED.  (b) If every dependency
ended with SUCCESS the gate is transparent: the job proceeds into the
gated body `runJobGated` (the `when` gate, RUNNING mark and step loop).
(c) The gate condition is exactly "every listed dependency has recorded
status SUCCESS". -/
theorem C5_depends_on_gate (evalWhen : W → List (LC × PyVal) → Option Bool)
    (stepImpl : LC → LC → PyVal → StepRun) (env : List (LC × LC))
    (flowId runId : LC) (rs : RunState) (job : JobSpec W) :
    (job.dependsOn ≠ [] → depsOk rs job.dependsOn = false →
      runJob evalWhen stepImpl env flowId runId rs job =
        JobOutcome.proceeded { rs with
          statuses := kvSet rs.statuses job.id JOB_BLOCKED,
          jobCtx := kvSet rs.jobCtx job.id
            (.dict [(lc "status", .str JOB_BLOCKED), (lc "outputs", .dict [])]),
          store := setJobStatus rs.store job.id runId JOB_BLOCKED,
          events := rs.events ++ [.jobBlocked job.id] } ∧
      (setJobStatus rs.store job.id runId JOB_BLOCKED).stepRuns = rs.store.stepRuns ∧
      JOB_BLOCKED ≠ JOB_FAILED) ∧
    (depsOk rs job.dependsOn = true →
      runJob evalWhen stepImpl env flowId runId rs job =
        runJobGated evalWhen stepImpl env flowId runId rs job) ∧
    (depsOk rs job.dependsOn = true ↔
      ∀ dep ∈ job.dependsOn, kvGet rs.statuses dep = some JOB_SUCCESS) := by
  refine ⟨fun h1 h2 => ⟨?_, rfl, by decide⟩, fun h => ?_, ?_⟩
  · have hne : job.dependsOn.isEmpty = false := by
      cases hd : job.dependsOn with
      | nil => exact absurd hd h1
      | cons a l => rfl
    simp [runJob, hne, h2]
  · simp [runJob, h]
  · simp [depsOk, List.all_eq_true]

/-- Witness for C5 at a concrete state: job `b` depends on `a`, whose
recorded status is FAILED; the gate records `b` as BLOCKED everywhere,
appends the single `jobBlocked` event and leaves the step-run table
empty. -/
theorem C5_depends_on_gate_witness :
    runJob (W := Unit) (fun _ _ => some true) (fun _ _ _ => StepRun.ret (.dict []))
      [] (lc "f") (lc "r") ⟨[(lc "a", JOB_FAILED)], [], ⟨[], []⟩, []⟩
      ⟨lc "b", [lc "a"], Option.none, []⟩ =
    JobOutcome.proceeded
      ⟨[(lc "a", JOB_FAILED), (lc "b", JOB_BLOCKED)],
       [(lc "b", .dict [(lc "status", .str JOB_BLOCKED), (lc "outputs", .dict [])])],
       ⟨[((lc "b", lc "r"), JOB_BLOCKED)], []⟩,
       [RunEvent.jobBlocked (lc "b")]⟩ ∧
    JOB_BLOCKED ≠ JOB_FAILED := by
  have h := (C5_depends_on_gate (W := Unit) (fun _ _ => some true)
      (fun _ _ _ => StepRun.ret (.dict [])) [] (lc "f") (lc "r")
      ⟨[(lc "a", JOB_FAILED)], [], ⟨[], []⟩, []⟩
      ⟨lc "b", [lc "a"], Option.none, []⟩).1 (by decide) (by decide)
  exact ⟨h.1, h.2.2⟩

/-- C9 (resume idempotency): when the short-circuit flag is off and the
state store already holds status SUCCESS or SKIPPED for
`(job_id, run_id, step_id)`, one step iteration returns the state with
only the `stepResumeSkipped` observation appended: no `stepRendered`
event (inputs are not rendered), no `stepRan` event (the step is not
instantiated or executed), the store, step outputs and job outputs are
all unchanged. -/
theorem C9_resume_idempotency (stepImpl : LC → LC → PyVal → StepRun)
    (env : List (LC × LC)) (flowId runId jobId : LC)
    (jobCtx : List (LC × PyVal)) (st : JobLoopState) (step : StepSpec) (prev : LC)
    (hprev : getStepStatus st.store jobId runId step.id = some prev)
    (hss : prev = STEP_SUCCESS ∨ prev = STEP_SKIPPED)
    (hskip : st.skipRest = false) :
    runStep1 stepImpl env flowId runId jobId jobCtx st step =
      Except.ok { st with
        events := st.events ++ [.stepResumeSkipped jobId step.id prev] } ∧
    ({ st with events := st.events ++ [RunEvent.stepResumeSkipped jobId step.id prev]
       : JobLoopState }).store = st.store ∧
    ({ st with events := st.events ++ [RunEvent.stepResumeSkipped jobId step.id prev]
       : JobLoopState }).stepOutputs = st.stepOutputs ∧
    ({ st with events := st.events ++ [RunEvent.stepResumeSkipped jobId step.id prev]
       : JobLoopState }).jobOutputs = st.jobOutputs := by
  refine ⟨?_, rfl, rfl, rfl⟩
  rcases hss with h | h <;> subst h <;> simp [runStep1, hskip, hprev]

/-- Witness for C9: step `s` of job `j` has persisted status SUCCESS; the
iteration leaves everything unchanged except for the appended
`stepResumeSkipped` event, even under a step oracle that would raise. -/
theorem C9_resume_idempotency_witness :
    runStep1 (fun _ _ _ => StepRun.exc) [] (lc "f") (lc "r") (lc "j") []
      ⟨[], [], false, .none, ⟨[], [((lc "j", lc "r", lc "s"), STEP_SUCCESS)]⟩, []⟩
      ⟨lc "s", lc "t", .dict [], .dict [], Option.none⟩ =
    Except.ok ⟨[], [], false, .none, ⟨[], [((lc "j", lc "r", lc "s"), STEP_SUCCESS)]⟩,
      [RunEvent.stepResumeSkipped (lc "j") (lc "s") STEP_SUCCESS]⟩ := by
  have h := C9_resume_idempotency (fun _ _ _ => StepRun.exc) [] (lc "f") (lc "r")
      (lc "j") []
      ⟨[], [], false, .none, ⟨[], [((lc "j", lc "r", lc "s"), STEP_SUCCESS)]⟩, []⟩
      ⟨lc "s", lc "t", .dict [], .dict [], Option.none⟩ STEP_SUCCESS (by decide)
      (Or.inl rfl) rfl
  exact h.1

/-! ### Order lemmas for `strLe` and the stable sort, used by C7. -/

theorem strLe_total : ∀ a b : LC, strLe a b = true ∨ strLe b a = true := by
  intro a
  induction a with
  | nil => intro b; left; rfl
  | cons c a' ih =>
    intro b
    cases b with
    | nil => right; rfl
    | cons d b' =>
      by_cases hcd : c = d
      · subst hcd
        rcases ih b' with h | h
        · left; simpa [strLe] using h
        · right; simpa [strLe] using h
      · rcases lt_or_gt_of_ne hcd with h | h
        · left; simp [strLe, hcd, h]
        · right
          have hdc : ¬ d = c := fun e => hcd e.symm
          simp [strLe, hdc, h]

theorem strLe_trans :
    ∀ {a b c : LC}, strLe a b = true → strLe b c = true → strLe a c = true := by
  intro a
  induction a with
  | nil => intro b c _ _; rfl
  | cons x a' ih =>
    intro b c h1 h2
    cases b with
    | nil => simp [strLe] at h1
    | cons y b' =>
      cases c with
      | nil => simp [strLe] at h2
      | cons z c' =>
        by_cases hxy : x = y <;> by_cases hyz : y = z
        · subst hxy; subst hyz
          simp only [strLe, if_pos rfl] at h1 h2 ⊢
          exact ih h1 h2
        · subst hxy
          simp [strLe, hyz] at h2 ⊢
          exact h2
        · subst hyz
          simp [strLe, hxy] at h1 ⊢
          exact h1
        · simp [strLe, hxy] at h1
          simp [strLe, hyz] at h2
          have hxz : x < z := lt_trans h1 h2
          simp [strLe, ne_of_lt hxz, hxz]

theorem strLe_antisymm :
    ∀ {a b : LC}, strLe a b = true → strLe b a = true → a = b := by
  intro a
  induction a with
  | nil =>
    intro b _ h2
    cases b with
    | nil => rfl
    | cons d b' => simp [strLe] at h2
  | cons x a' ih =>
    intro b h1 h2
    cases b with
    | nil => simp [strLe] at h1
    | cons y b' =>
      by_cases hxy : x = y
      · subst hxy
        simp only [strLe, if_pos rfl] at h1 h2
        rw [ih h1 h2]
      · simp [strLe, hxy] at h1
        have hyx : ¬ y = x := fun e => hxy e.symm
        simp [strLe, hyx] at h2
        exact absurd h2 (lt_asymm h1)

theorem stableInsert_perm (le : α → α → Bool) (x : α) :
    ∀ l : List α, (stableInsert le x l).Perm (x :: l) := by
  intro l
  induction l with
  | nil => exact List.Perm.refl _
  | cons y ys ih =>
    by_cases h : le y x = true
    · simp only [stableInsert]
      rw [if_pos h]
      exact (List.Perm.cons y ih).trans (List.Perm.swap x y ys)
    · simp only [stableInsert]
      rw [if_neg h]

theorem pySortedAux_perm (le : α → α → Bool) :
    ∀ (l acc : List α),
      (List.foldl (fun a x => stableInsert le x a) acc l).Perm (acc ++ l) := by
  intro l
  induction l with
  | nil => intro acc; simp
  | cons x t ih =>
    intro acc
    have h1 := ih (stableInsert le x acc)
    have h2 : (stableInsert le x acc ++ t).Perm (acc ++ x :: t) :=
      ((stableInsert_perm le x acc).append_right t).trans List.perm_middle.symm
    exact h1.trans h2

theorem pySorted_perm (le : α → α → Bool) (l : List α) :
    (pySorted le l).Perm l := by
  simpa using pySortedAux_perm le l []

theorem stableInsert_pairwise (le : α → α → Bool)
    (htot : ∀ a b, le a b = true ∨ le b a = true)
    (htr : ∀ {a b c}, le a b = true → le b c = true → le a c = true)
    (x : α) :
    ∀ {l : List α}, l.Pairwise (fun a b => le a b = true) →
      (stableInsert le x l).Pairwise (fun a b => le a b = true) := by
  intro l
  induction l with
  | nil =>
    intro _
    simp [stableInsert]
  | cons y ys ih =>
    intro h
    rcases List.pairwise_cons.mp h with ⟨hy, hys⟩
    by_cases hle : le y x = true
    · simp only [stableInsert]
      rw [if_pos hle]
      refine List.pairwise_cons.mpr ⟨?_, ih hys⟩
      intro z hz
      have hz' : z ∈ x :: ys := (stableInsert_perm le x ys).subset hz
      rcases List.mem_cons.mp hz' with h' | h'
      · subst h'; exact hle
      · exact hy z h'
    · simp only [stableInsert]
      rw [if_neg hle]
      refine List.pairwise_cons.mpr ⟨?_, h⟩
      intro z hz
      have hxy : le x y = true := by
        rcases htot x y with h' | h'
        · exact h'
        · exact absurd h' hle
      rcases List.mem_cons.mp hz with h' | h'
      · subst h'; exact hxy
      · exact htr hxy (hy z h')

theorem pySorted_pairwise (le : α → α → Bool)
    (htot : ∀ a b, le a b = true ∨ le b a = true)
    (htr : ∀ {a b c}, le a b = true → le b c = true → le a c = true)
    (l : List α) :
    (pySorted le l).Pairwise (fun a b => le a b = true) := by
  suffices h : ∀ (l acc : List α), acc.Pairwise (fun a b => le a b = true) →
      (List.foldl (fun a x => stableInsert le x a) acc l).Pairwise
        (fun a b => le a b = true) from h l [] List.Pairwise.nil
  intro l
  induction l with
  | nil => intro acc hacc; exact hacc
  | cons x t ih =>
    intro acc hacc
    exact ih _ (stableInsert_pairwise le htot (fun h1 h2 => htr h1 h2) x hacc)

/-- Two `strLe`-sorted pair lists that are permutations of each other, with
values a function of the key, are equal. -/
theorem sortedPermEq :
    ∀ {l1 l2 : List (LC × LC)},
      l1.Perm l2 →
      l1.Pairwise (fun a b => strLe a.1 b.1 = true) →
      l2.Pairwise (fun a b => strLe a.1 b.1 = true) →
      (∀ p ∈ l1, ∀ q ∈ l1, p.1 = q.1 → p.2 = q.2) →
      l1 = l2 := by
  intro l1
  induction l1 with
  | nil =>
    intro l2 hp _ _ _
    exact (hp.symm.eq_nil).symm
  | cons x t1 ih =>
    intro l2 hp hs1 hs2 hf
    cases l2 with
    | nil => exact absurd hp.eq_nil (List.cons_ne_nil x t1)
    | cons y t2 =>
      have hx2 : x ∈ y :: t2 := hp.subset (List.mem_cons_self x t1)
      have hy1 : y ∈ x :: t1 := hp.symm.subset (List.mem_cons_self y t2)
      have hxy : x = y := by
        rcases List.mem_cons.mp hx2 with h | hx
        · exact h
        rcases List.mem_cons.mp hy1 with h | hy
        · exact h.symm
        have h1 : strLe x.1 y.1 = true := (List.pairwise_cons.mp hs1).1 y hy
        have h2 : strLe y.1 x.1 = true := (List.pairwise_cons.mp hs2).1 x hx
        have hk : x.1 = y.1 := strLe_antisymm h1 h2
        have hv : x.2 = y.2 := hf x (List.mem_cons_self x t1) y hy1 hk
        exact Prod.ext hk hv
      subst hxy
      have hp' : t1.Perm t2 := hp.cons_inv
      have hf' : ∀ p ∈ t1, ∀ q ∈ t1, p.1 = q.1 → p.2 = q.2 := fun p hpm q hq hk =>
        hf p (List.mem_cons_of_mem x hpm) q (List.mem_cons_of_mem x hq) hk
      rw [ih hp' (List.pairwise_cons.mp hs1).2 (List.pairwise_cons.mp hs2).2 hf']

/-- C7: the bundle fingerprint is the SHA-256 of the compact JSON of the
`(rel_path, signature)` pairs sorted by `rel_path` (second conjunct,
definitional), and it is invariant under reordering of the input metadata
list: for any two lists of file metas that are permutations of each other,
with the signature a function of the relative path (in particular whenever
the relative paths are distinct), the fingerprints agree — `sorted` erases
the enumeration order. -/
theorem C7_fingerprint_perm (m1 m2 : List RemoteFileMeta)
    (hperm : m1.Perm m2)
    (hfun : ∀ a ∈ m1, ∀ b ∈ m1, a.relPath = b.relPath → sigOf a = sigOf b) :
    fingerprint m1 = fingerprint m2 ∧
    fingerprint m1 =
      sha256Hex (utf8 (jsonPairs
        ((pySorted metaLe m1).map (fun m => (m.relPath, sigOf m))))) := by
  refine ⟨?_, rfl⟩
  have htot : ∀ a b : RemoteFileMeta, metaLe a b = true ∨ metaLe b a = true :=
    fun a b => strLe_total a.relPath b.relPath
  have htr : ∀ {a b c : RemoteFileMeta},
      metaLe a b = true → metaLe b c = true → metaLe a c = true :=
    fun h1 h2 => strLe_trans h1 h2
  have hps1 : ((pySorted metaLe m1).map (fun m => (m.relPath, sigOf m))).Pairwise
      (fun a b => strLe a.1 b.1 = true) :=
    (pySorted_pairwise metaLe htot (fun h1 h2 => htr h1 h2) m1).map
      (fun m => (m.relPath, sigOf m)) (fun _ _ h => h)
  have hps2 : ((pySorted metaLe m2).map (fun m => (m.relPath, sigOf m))).Pairwise
      (fun a b => strLe a.1 b.1 = true) :=
    (pySorted_pairwise metaLe htot (fun h1 h2 => htr h1 h2) m2).map
      (fun m => (m.relPath, sigOf m)) (fun _ _ h => h)
  have hpp : ((pySorted metaLe m1).map (fun m => (m.relPath, sigOf m))).Perm
      ((pySorted metaLe m2).map (fun m => (m.relPath, sigOf m))) :=
    (((pySorted_perm metaLe m1).trans hperm).trans
      (pySorted_perm metaLe m2).symm).map (fun m => (m.relPath, sigOf m))
  have hfp : ∀ p ∈ (pySorted metaLe m1).map (fun m => (m.relPath, sigOf m)),
      ∀ q ∈ (pySorted metaLe m1).map (fun m => (m.relPath, sigOf m)),
      p.1 = q.1 → p.2 = q.2 := by
    intro p hpm q hq hk
    rcases List.mem_map.mp hpm with ⟨a, ha, rfl⟩
    rcases List.mem_map.mp hq with ⟨b, hb, rfl⟩
    exact hfun a ((pySorted_perm metaLe m1).subset ha)
      b ((pySorted_perm metaLe m1).subset hb) hk
  have heq : (pySorted metaLe m1).map (fun m => (m.relPath, sigOf m)) =
      (pySorted metaLe m2).map (fun m => (m.relPath, sigOf m)) :=
    sortedPermEq hpp hps1 hps2 hfp
  unfold fingerprint fingerprintParts
  rw [heq]

/-- Witness for C7: swapping two distinct files does not change the
fingerprint. -/
theorem C7_fingerprint_perm_witness :
    fingerprint [⟨lc "b.txt", some 1, Option.none, some (lc "aa")⟩,
                 ⟨lc "a.txt", Option.none, Option.none, some (lc "bb")⟩] =
    fingerprint [⟨lc "a.txt", Option.none, Option.none, some (lc "bb")⟩,
                 ⟨lc "b.txt", some 1, Option.none, some (lc "aa")⟩] :=
  (C7_fingerprint_perm
    [⟨lc "b.txt", some 1, Option.none, some (lc "aa")⟩,
     ⟨lc "a.txt", Option.none, Option.none, some (lc "bb")⟩]
    [⟨lc "a.txt", Option.none, Option.none, some (lc "bb")⟩,
     ⟨lc "b.txt", some 1, Option.none, some (lc "aa")⟩]
    (List.Perm.swap _ _ _) (by decide)).1

/-- C8: with `fetch_policy=cache_check`, a previously recorded fingerprint
equal to the newly computed one, and an existing `active/` directory,
`sync_bundle` returns early: `changed=false`, `fetched_files=[]`, the
active directory is not replaced, and the only remote reads are those of
the `strict_fingerprint` enrichment pass — in particular with
`strict_fingerprint` off no file bytes are read at all (second
conjunct). -/
theorem C8_cache_check_early_return
    (metas : List RemoteFileMeta) (strictFp : Bool) (oldFp : Option LC)
    (oldMap : List (LC × SnapEntry)) (cache0 : List LC)
    (readBytes : LC → List Nat) (entryFlow : LC)
    (hfp : oldFp = some (fingerprint
      (if strictFp then enrichStrict readBytes metas cache0
       else (metas, cache0, [])).1)) :
    syncCore metas strictFp (lc "cache_check") oldFp true oldMap cache0
        readBytes entryFlow =
      Except.ok
        { fingerprint := fingerprint
            (if strictFp then enrichStrict readBytes metas cache0
             else (metas, cache0, [])).1,
          changed := false, fetchedFiles := [],
          reads := (if strictFp then enrichStrict readBytes metas cache0
                    else (metas, cache0, [])).2.2,
          activeReplaced := false } ∧
    (strictFp = false →
      (if strictFp then enrichStrict readBytes metas cache0
       else (metas, cache0, [])).2.2 = []) := by
  constructor
  · unfold syncCore
    subst hfp
    have h : decide (lc "cache_check" = lc "always") = false := by decide
    simp [h]
  · intro h
    subst h
    rfl

/-- Witness for C8: one sha-carrying meta, non-strict mode — the sync is a
no-op with no reads. -/
theorem C8_cache_check_early_return_witness :
    syncCore [⟨lc "a", Option.none, Option.none, some (lc "x")⟩] false
      (lc "cache_check")
      (some (fingerprint [⟨lc "a", Option.none, Option.none, some (lc "x")⟩]))
      true [] [] (fun _ => []) [] =
    Except.ok
      { fingerprint := fingerprint [⟨lc "a", Option.none, Option.none, some (lc "x")⟩],
        changed := false, fetchedFiles := [], reads := [],
        activeReplaced := false } := by
  have h := C8_cache_check_early_return
      [⟨lc "a", Option.none, Option.none, some (lc "x")⟩] false
      (some (fingerprint [⟨lc "a", Option.none, Option.none, some (lc "x")⟩]))
      [] [] (fun _ => []) [] rfl
  exact h.1

/-- Counterexample to C8 as stated: with `strict_fingerprint=true` and a
meta lacking a sha, the enrichment pass reads the file's bytes
(`reads = ["a"] ≠ []`) before the cache-check early return — the sync
still returns `changed=false, fetched_files=[]` with the active directory
untouched, but it did fetch file bytes. -/
theorem C8_counterexample :
    syncCore [⟨lc "a", some 1, Option.none, Option.none⟩] true (lc "cache_check")
      (some (fingerprint [⟨lc "a", some 1, Option.none, some (sha256Hex [])⟩]))
      true [] [] (fun _ => []) [] =
    Except.ok
      { fingerprint := fingerprint
          [⟨lc "a", some 1, Option.none, some (sha256Hex [])⟩],
        changed := false, fetchedFiles := [], reads := [lc "a"],
        activeReplaced := false } ∧
    (lc "a") :: ([] : List LC) ≠ [] := by
  constructor
  · rfl
  · decide

/-- A small filesystem for the sandbox claims: work root `/w`, artifacts
dir `/w/fl/j/artifacts` containing a symlink `link → /w/fl/j/artifacts/real`. -/
def fs6 : Fs :=
  [(⟨[lc "w"]⟩, .dir),
   (⟨[lc "w", lc "fl"]⟩, .dir),
   (⟨[lc "w", lc "fl", lc "j"]⟩, .dir),
   (⟨[lc "w", lc "fl", lc "j", lc "artifacts"]⟩, .dir),
   (⟨[lc "w", lc "fl", lc "j", lc "artifacts", lc "link"]⟩,
      .symlink ⟨[lc "w", lc "fl", lc "j", lc "artifacts", lc "real"]⟩),
   (⟨[lc "w", lc "fl", lc "j", lc "artifacts", lc "real"]⟩, .dir)]

/-- Default-mode context (sandbox on, enterprise off). -/
def ctx6 : StepCtx :=
  ⟨[], some ⟨[lc "w"]⟩, ⟨[lc "w", lc "fl", lc "j", lc "artifacts"]⟩⟩

/-- Enterprise-mode context. -/
def ctx6e : StepCtx :=
  ⟨[(lc "AETHERFLOW_MODE_ENTERPRISE", lc "true")], some ⟨[lc "w"]⟩,
   ⟨[lc "w", lc "fl", lc "j", lc "artifacts"]⟩⟩

/-- C6 (code bug): escapes outside the allowed roots are rejected as
claimed — `../../etc/passwd` raises in enterprise mode, and a full escape
to `/etc/passwd` raises in default mode (conjuncts 1-2).  But the symlink
part of the claim fails: `_resolve_path` calls `.resolve()` on the
candidate BEFORE `_reject_symlink_chain`, so the relative path
`link/out.txt`, whose first segment `link` is a symlink
(conjunct 4), is ACCEPTED and silently redirected to
`.../artifacts/real/out.txt` (conjunct 3) — the chain check runs on the
already-resolved candidate, which no longer contains a symlink.
Conjunct 5 shows the check itself would have rejected the unresolved
candidate, locating the defeat in the premature `.resolve()`. -/
theorem C6_sandbox_symlink_defeated :
    resolvePath fs6 ctx6e ⟨false, [lc "..", lc "..", lc "etc", lc "passwd"]⟩ =
      Except.error (lc "Path escapes job artifacts dir in enterprise mode: ") ∧
    resolvePath fs6 ctx6
        ⟨false, [lc "..", lc "..", lc "..", lc "..", lc "etc", lc "passwd"]⟩ =
      Except.error (lc "Path not under allowed roots: ") ∧
    resolvePath fs6 ctx6 ⟨false, [lc "link", lc "out.txt"]⟩ =
      Except.ok ⟨[lc "w", lc "fl", lc "j", lc "artifacts", lc "real", lc "out.txt"]⟩ ∧
    fsIsSymlink fs6 ⟨[lc "w", lc "fl", lc "j", lc "artifacts", lc "link"]⟩ = true ∧
    rejectSymlinkChain fs6 ⟨[lc "w", lc "fl", lc "j", lc "artifacts"]⟩
        ⟨[lc "w", lc "fl", lc "j", lc "artifacts", lc "link", lc "out.txt"]⟩ =
      Except.error (lc "Path contains symlink (sandbox blocked): ") := by
  refine ⟨?_, ?_, ?_, ?_, ?_⟩ <;> rfl

theorem containsSub_mem {s p : LC} (h : containsSub s p = true) : ∀ c ∈ p, c ∈ s := by
  induction s with
  | nil =>
    rw [containsSub] at h
    have := List.prefix_nil.mp (List.isPrefixOf_iff_prefix.mp h)
    subst this
    intro c hc
    cases hc
  | cons x t ih =>
    rw [containsSub, Bool.or_eq_true] at h
    rcases h with h1 | h2
    · intro c hc
      exact (List.isPrefixOf_iff_prefix.mp h1).subset hc
    · intro c hc
      exact List.mem_cons_of_mem x (ih h2 c hc)

theorem splitFirstSub_isSome_contains {s pat : LC}
    (h : (splitFirstSub s pat).isSome = true) : containsSub s pat = true := by
  induction s with
  | nil =>
    rw [splitFirstSub] at h
    rw [containsSub]
    by_cases hp : pat.isPrefixOf ([] : LC)
    · exact hp
    · rw [if_neg hp] at h
      cases h
  | cons c t ih =>
    rw [splitFirstSub] at h
    rw [containsSub]
    by_cases hp : pat.isPrefixOf (c :: t)
    · simp [hp]
    · rw [if_neg hp] at h
      rw [Bool.or_eq_true]
      right
      apply ih
      cases hsp : splitFirstSub t pat with
      | none => rw [hsp] at h; simp at h
      | some p => rfl

theorem splitFirstSub_eq_none_of {s pat : LC} (h : containsSub s pat = false) :
    splitFirstSub s pat = Option.none := by
  cases hs : splitFirstSub s pat with
  | none => rfl
  | some p =>
    rw [splitFirstSub_isSome_contains (by rw [hs]; rfl)] at h
    cases h

def tokenPath (token : LC) : LC :=
  match splitFirstSub token [':'] with
  | some (p, _) => pyStrip p
  | Option.none => pyStrip token

theorem renderToken_valid {m : List (LC × PyVal)} {strict : Bool}
    {roots : Option (List LC)} {token piece : LC}
    (h : renderToken m strict roots token = Except.ok piece) :
    isValidPath (tokenPath token) = true := by
  rw [renderToken] at h
  rw [tokenPath]
  cases hsp : splitFirstSub token [':'] with
  | none =>
    simp only [hsp] at h
    cases hv : isValidPath (pyStrip token) with
    | true => rfl
    | false => simp [hv] at h
  | some p =>
    obtain ⟨pp, dd⟩ := p
    simp only [hsp] at h
    cases hv : isValidPath (pyStrip pp) with
    | true => rfl
    | false => simp [hv] at h

def wfLoopF : Nat → LC → Bool
  | 0, _ => true
  | fuel + 1, rest =>
    match splitFirstSub rest openPat with
    | Option.none => true
    | some (before, afterOpen) =>
      !containsSub before closePat &&
      match splitFirstSub afterOpen closePat with
      | Option.none => false
      | some (inner, afterClose) =>
        let token := pyStrip inner
        !(token = [] || token.contains '{' || token.contains '}') &&
        isValidPath (tokenPath token) && wfLoopF fuel afterClose

def wfChunks (value : LC) : Bool := wfLoopF value.length value

theorem renderLoopF_wf (m : List (LC × PyVal)) (strict : Bool)
    (roots : Option (List LC)) :
    ∀ (fuel : Nat) (rest out : LC),
      renderLoopF m strict roots fuel rest = Except.ok out →
      wfLoopF fuel rest = true := by
  intro fuel
  induction fuel with
  | zero => intro rest out _; rfl
  | succ f ih =>
    intro rest out h
    rw [renderLoopF] at h
    rw [wfLoopF]
    cases hs : splitFirstSub rest openPat with
    | none => rfl
    | some p =>
      obtain ⟨before, afterOpen⟩ := p
      rw [hs] at h
      by_cases hb : containsSub before closePat = true
      · simp [hb] at h
      · have hb' : containsSub before closePat = false := Bool.eq_false_iff.mpr hb
        simp only [hb', Bool.false_eq_true, if_false] at h
        simp only [hb', Bool.not_false, Bool.true_and]
        cases hc : splitFirstSub afterOpen closePat with
        | none => rw [hc] at h; exact Except.noConfusion h
        | some q =>
          obtain ⟨inner, afterClose⟩ := q
          rw [hc] at h
          by_cases heP : (pyStrip inner = [] ∨ '{' ∈ pyStrip inner) ∨ '}' ∈ pyStrip inner
          · simp [heP] at h
          · simp [heP] at h
            cases hr : renderToken m strict roots (pyStrip inner) with
            | error e => rw [hr] at h; exact Except.noConfusion h
            | ok piece =>
              cases hrec : renderLoopF m strict roots f afterClose with
              | error e => rw [hr, hrec] at h; exact Except.noConfusion h
              | ok out' =>
                have hwf := ih afterClose out' hrec
                have hvalid := renderToken_valid hr
                simp [hvalid, hwf]
                push_neg at heP
                exact heP

theorem renderString_clean (value : LC) (m : List (LC × PyVal)) (strict : Bool)
    (roots : Option (List LC)) (h1 : ¬ '{' ∈ value) (h2 : ¬ '}' ∈ value) :
    renderString value m strict roots = Except.ok value := by
  have hno : ∀ p : LC, '{' ∈ p ∨ '}' ∈ p → containsSub value p = false := by
    intro p hp
    cases hx : containsSub value p with
    | false => rfl
    | true =>
      rcases hp with hc | hc
      · exact absurd (containsSub_mem hx '{' hc) h1
      · exact absurd (containsSub_mem hx '}' hc) h2
  have hforb : containsForbidden value = false := by
    rw [containsForbidden]
    rw [hno ['$', '{'] (Or.inl (by simp)), hno ['{', '%'] (Or.inl (by simp)),
        hno ['%', '}'] (Or.inr (by simp)), hno ['{', '#'] (Or.inl (by simp)),
        hno ['#', '}'] (Or.inr (by simp)), hno ['{', '}'] (Or.inl (by simp))]
    rfl
  rw [renderString, hforb]
  rw [hno openPat (Or.inl (by simp [openPat])),
      hno closePat (Or.inr (by simp [closePat]))]
  rfl

/-- C2 (corrected): (1) any string containing a forbidden pattern
(`$`+`\x7b`, `\x7b%`, `%\x7d`, `\x7b#`, `#\x7d`, or the empty pair) raises the
syntax error; (2) every `ResolverSyntaxError` message starts with the
fixed unsupported-syntax prefix; (3) soundness of acceptance: a string
that renders successfully contains no forbidden pattern, and every
`\x7b\x7b` in it opens a region that closes before any stray `\x7d\x7d`, with a
nonempty, brace-free token whose path is a valid dotted identifier
(`wfChunks`); (4) a string with no brace characters at all is always
accepted unchanged.  The claimed converse of (1)-(3) — that literal
braces outside matched pairs always raise — is false: see the
counterexample. -/
theorem C2_render_gate (value : LC) (m : List (LC × PyVal)) :
    (containsForbidden value = true →
      render_string value m =
        Except.error (RErr.syn (lc "_contains_forbidden_syntax"))) ∧
    (∀ d, unsupportedMsg.isPrefixOf (errText (RErr.syn d)) = true) ∧
    (∀ out, render_string value m = Except.ok out →
      containsForbidden value = false ∧ wfChunks value = true) ∧
    (¬ '{' ∈ value → ¬ '}' ∈ value →
      render_string value m = Except.ok value) := by
  refine ⟨?_, ?_, ?_, ?_⟩
  · intro hf
    simp [render_string, renderString, hf]
  · intro d
    rw [List.isPrefixOf_iff_prefix]
    exact ⟨'\n' :: d, rfl⟩
  · intro out h
    cases hf : containsForbidden value with
    | true =>
      rw [render_string, renderString, hf] at h
      simp at h
    | false =>
      refine ⟨rfl, ?_⟩
      rw [render_string, renderString, hf] at h
      by_cases hfast : (!containsSub value openPat && !containsSub value closePat) = true
      · have hopen : containsSub value openPat = false := by
          revert hfast
          cases containsSub value openPat <;> simp
        have hsplit := splitFirstSub_eq_none_of hopen
        rw [wfChunks]
        cases hl : value.length with
        | zero => rfl
        | succ n => rw [wfLoopF, hsplit]
      · simp only [hfast, Bool.false_eq_true, if_false] at h
        cases hr : renderLoop m true Option.none value with
        | error e => rw [hr] at h; exact Except.noConfusion h
        | ok rendered =>
          rw [wfChunks]
          exact renderLoopF_wf m true Option.none value.length value rendered hr
  · exact renderString_clean value m true Option.none

/-- Counterexample to C2 as stated: the stray close `\x7d\x7d` (and likewise a
lone brace) passes through `_render_string` unrejected, since the scan
only inspects text following a `\x7b\x7b`; and conversely `\x7b\x7ba b\x7d\x7d`, which has
no forbidden pattern and only matched braces, still raises the syntax
error because its token is not a valid dotted path. -/
theorem C2_counterexample :
    render_string (lc "\x7d\x7d") [] = Except.ok (lc "\x7d\x7d") ∧
    containsForbidden (lc "\x7d\x7d") = false ∧
    render_string (lc "{{a b}}") [] =
      Except.error (RErr.syn (lc "_is_valid_path False")) ∧
    containsForbidden (lc "{{a b}}") = false := by
  refine ⟨rfl, rfl, rfl, rfl⟩

/-- Witness for C2 at concrete strings: a Jinja-style tag is rejected
with the fixed message, a brace-free string passes through unchanged, and
an accepted mixed string satisfies the decomposition predicate. -/
theorem C2_render_gate_witness :
    render_string (lc "{% if x %}") [] =
      Except.error (RErr.syn (lc "_contains_forbidden_syntax")) ∧
    render_string (lc "plain text") [] = Except.ok (lc "plain text") ∧
    (containsForbidden (lc "a {{x}} b") = false ∧
     wfChunks (lc "a {{x}} b") = true) := by
  have h1 := (C2_render_gate (lc "{% if x %}") []).1 (by decide)
  have h2 := (C2_render_gate (lc "plain text") []).2.2.2 (by decide) (by decide)
  have h3 := (C2_render_gate (lc "a {{x}} b")
      [(lc "x", PyVal.str (lc "v"))]).2.2.1 (lc "a v b") (by rfl)
  exact ⟨h1, h2, h3⟩

end Aether
